import Mathlib

/-!
# opcg-cardlist: storage and normalisation of the crawled card catalogue

A shallow embedding of `src/functions/SQLiteHandle.js`, of the record
extraction and the series loop of `src/functions/DriverHandle.js`, and of the
image download of `src/functions/ImageDownload.js` with its loop in
`src/index.js`.

Conventions of the embedding.

* A table is the list of its rows in rowid order, which is the order in which
  SQLite scans a table that is read without `ORDER BY`.
* JavaScript strings are `String`s; a text column holds a `String`.
* `TEXT` values are compared with SQLite's default `BINARY` collation, that is
  byte-wise on the UTF-8 encoding; on well-formed text that is the
  lexicographic order of the code points, which is what `binaryLe` computes.
* `row_number() OVER (ORDER BY card_id)` numbers the rows after sorting them on
  `card_id`; SQLite's sorter keeps rows with equal keys in scan order, so the
  embedding uses a stable sort (`List.insertionSort`).
-/

namespace OpcgCardlist

/-! ## Text comparison -/

/-- Lexicographic comparison of two texts by code point: `a ≤ b` in the
`BINARY` collation. -/
def binaryLe : List Char → List Char → Bool
  | [], _ => true
  | _ :: _, [] => false
  | a :: as, b :: bs =>
    if a.toNat < b.toNat then true
    else if b.toNat < a.toNat then false
    else binaryLe as bs

/-- The comparison `a <= b` of two `TEXT` values. -/
def textLe (a b : String) : Bool := binaryLe a.data b.data

/-- The comparison `a < b` of two `TEXT` values. -/
def textLt (a b : String) : Bool := !textLe b a

/-! ## Rows of the tables of `SQLiteHandle.js` -/

/-- A row of `cards_info` as created by `saveSeriesDatabase` (the table of raw
card rows). `card_name` is `none` for SQL `NULL`. -/
structure CardInfoRow where
  cid : Nat
  card_id : String
  card_name : Option String
  card_species : String
  card_type : String
  img_src : String
  cost : Int
  power : Int
  counter : Int
  color : String
  feature : String
  effect : String
  get_info : String
  series_id : String
deriving DecidableEq, Repr

/-- A row of `new_cards_info`, the table that `normalizeDatabase` renames to
`cards_info` (the canonical cards). -/
structure NewCardInfoRow where
  cid : Nat
  card_id : String
  card_name : Option String
  card_type : String
  cost : Int
  power : Int
  counter : Int
  color : String
  feature : String
  effect : String
deriving DecidableEq, Repr

/-- A row of `cards_image_info` (the variants). `cid` is `none` for SQL
`NULL`. -/
structure ImageInfoRow where
  cid : Option Nat
  img_src : String
  card_species : String
  get_info : String
  series_id : String
  is_diff : Nat
deriving DecidableEq, Repr

/-! ## The regular expression `/_p\d+\.png$/` -/

/-- The class `\d` of a JavaScript regular expression: the ASCII digits. -/
def isDigit (c : Char) : Bool := decide (48 ≤ c.toNat) && decide (c.toNat ≤ 57)

/-- Match of `_p\d+\.png$` starting at the head of the input. `\d+` is greedy;
since the character after it must be `.`, which is no digit, the longest run of
digits is the only one that can lead to a match. -/
def matchHere : List Char → Bool
  | a :: b :: rest =>
    a == '_' && b == 'p' && !(rest.takeWhile isDigit).isEmpty &&
      rest.dropWhile isDigit == ['.', 'p', 'n', 'g']
  | _ => false

/-- The call `/_p\d+\.png$/.test(s)`: the pattern is tried at every start
position of `s`. -/
def regexTest (s : String) : Bool := s.data.tails.any matchHere

/-- The flag `isDiff` of `normalizeDatabase`:
`/_p\d+\.png$/.test(row.img_src) ? 1 : 0`. -/
def isDiff (img_src : String) : Nat := if regexTest img_src then 1 else 0

/-! ## `normalizeDatabase` -/

/-- The rows of `cards_info` in the order of the window
`OVER (ORDER BY card_id)`, each tagged with its position in the scan of
`cards_info`. The tag is not a column: it records which raw row a sorted row
comes from. -/
def windowOrder (cards_info : List CardInfoRow) : List (Nat × CardInfoRow) :=
  List.insertionSort (fun a b => textLe a.2.card_id b.2.card_id = true) cards_info.enum

/-- The columns that the `SELECT` of `new_cards_info` keeps of a raw row,
under the given `cid`. -/
def newCardsInfoRow (cid : Nat) (r : CardInfoRow) : NewCardInfoRow :=
  { cid := cid
    card_id := r.card_id
    card_name := r.card_name
    card_type := r.card_type
    cost := r.cost
    power := r.power
    counter := r.counter
    color := r.color
    feature := r.feature
    effect := r.effect }

/-- The statement
`SELECT row_number() OVER (ORDER BY card_id) AS cid, card_id, card_name,
card_type, cost, power, counter, color, feature, effect FROM cards_info`,
whose result `CREATE TABLE ... AS` stores as `new_cards_info`. -/
def selectNewCardsInfo (cards_info : List CardInfoRow) : List NewCardInfoRow :=
  (windowOrder cards_info).enum.map fun p => newCardsInfoRow (p.1 + 1) p.2.2

/-- The lookup `SELECT cid FROM new_cards_info WHERE card_id = ?` followed by
`.get(row.card_id)?.cid`: the `cid` of the first row of `new_cards_info` with
that `card_id`, `none` (JavaScript `undefined`) when there is none. -/
def selectCid (new_cards_info : List NewCardInfoRow) (card_id : String) : Option Nat :=
  (new_cards_info.find? fun r => r.card_id == card_id).map fun r => r.cid

/-- The row that one turn of the loop `for (const row of rows)` inserts into
`cards_image_info`. -/
def imageInfoRow (new_cards_info : List NewCardInfoRow) (row : CardInfoRow) : ImageInfoRow :=
  { cid := selectCid new_cards_info row.card_id
    img_src := row.img_src
    card_species := row.card_species
    get_info := row.get_info
    series_id := row.series_id
    is_diff := isDiff row.img_src }

/-- The pass `normalizeDatabase` on a store that holds the raw table
`cards_info`, the table `cards_image_info` (empty when it is created by the
pass) and no table `new_cards_info`, as is the case in a run of `index.js`,
which starts from an empty `db` folder. The result is the new `cards_info` (the
renamed `new_cards_info`) and `cards_image_info`. -/
def normalizeDatabase (cards_info : List CardInfoRow) (cards_image_info : List ImageInfoRow) :
    List NewCardInfoRow × List ImageInfoRow :=
  let new_cards_info := selectNewCardsInfo cards_info
  (new_cards_info, cards_image_info ++ cards_info.map (imageInfoRow new_cards_info))

/-- Position, in `new_cards_info`, of the row that comes from the raw row at
position `i` of `cards_info`. -/
def canonicalPos (cards_info : List CardInfoRow) (i : Nat) : Nat :=
  ((windowOrder cards_info).map Prod.fst).indexOf i

/-- The canonical card produced from the raw row at position `i`. -/
def canonicalOf (cards_info : List CardInfoRow) (i : Nat) : Option NewCardInfoRow :=
  (selectNewCardsInfo cards_info)[canonicalPos cards_info i]?

/-- The variant produced from the raw row at position `i`: the `i`-th row that
the pass appends to `cards_image_info`. -/
def variantOf (cards_info : List CardInfoRow) (cards_image_info : List ImageInfoRow) (i : Nat) :
    Option ImageInfoRow :=
  (normalizeDatabase cards_info cards_image_info).2[cards_image_info.length + i]?

/-- The `cid` of the canonical card produced from the raw row at position
`i`. -/
def canonicalCid (cards_info : List CardInfoRow) (i : Nat) : Option Nat :=
  (canonicalOf cards_info i).map fun c => c.cid

/-- The `cid` stored in the variant produced from the raw row at position
`i`. -/
def variantCid (cards_info : List CardInfoRow) (cards_image_info : List ImageInfoRow)
    (i : Nat) : Option Nat :=
  (variantOf cards_info cards_image_info i).bind fun v => v.cid

/-- A raw row with the given `card_id` and `img_src`, the other columns
fixed. -/
def sampleRow (cid : Nat) (card_id img_src : String) : CardInfoRow :=
  { cid := cid, card_id := card_id, card_name := some "Edward.Newgate", card_species := "L",
    card_type := "LEADER", img_src := img_src, cost := 0, power := 5000, counter := 0,
    color := "Red", feature := "-", effect := "-", get_info := "-", series_id := "569105" }

/-- The two prints of `OP05-002`. -/
def twoPrints : List CardInfoRow :=
  [sampleRow 1 "OP05-002" "/images/cardlist/card/OP05-002.png",
   sampleRow 2 "OP05-002" "/images/cardlist/card/OP05-002_p1.png"]


/-- Three raw rows: the two prints of `OP05-002` with `OP01-001` stored
between them. -/
def threeRows : List CardInfoRow :=
  [sampleRow 1 "OP05-002" "/images/cardlist/card/OP05-002.png",
   sampleRow 2 "OP01-001" "/images/cardlist/card/OP01-001.png",
   sampleRow 3 "OP05-002" "/images/cardlist/card/OP05-002_p1.png"]

/-! ## The alternate-art pattern in the words of the specification -/

/-- An image reference with its query string removed: the text before the
first `?`. -/
def withoutQuery (s : List Char) : List Char := s.takeWhile fun c => c != '?'

/-- The filename of a path: the text after its last `/`. -/
def fileNameOf (s : List Char) : List Char := (s.reverse.takeWhile fun c => c != '/').reverse

/-- The pattern of Invariant I2 in the words of the specification: the filename
of the image reference, query string ignored, is `<stem>_p<digits>.<ext>` for
some extension `<ext>`. -/
def hasAlternateArtName (imageSrc : String) : Prop :=
  ∃ stem digits ext : List Char, digits ≠ [] ∧ (∀ c ∈ digits, isDigit c = true) ∧ ext ≠ [] ∧
    fileNameOf (withoutQuery imageSrc.data) = stem ++ ['_', 'p'] ++ digits ++ ['.'] ++ ext

/-! ## Record extraction of `DriverHandle.handleSeriesCardlist` -/

/-- The code points that `String.prototype.trim` removes and that `parseInt`
skips at the start of its input: ECMAScript `WhiteSpace` and
`LineTerminator`. -/
def isWhiteSpace (c : Char) : Bool :=
  [0x9, 0xA, 0xB, 0xC, 0xD, 0x20, 0xA0, 0x1680, 0x2000, 0x2001, 0x2002, 0x2003, 0x2004, 0x2005,
    0x2006, 0x2007, 0x2008, 0x2009, 0x200A, 0x2028, 0x2029, 0x202F, 0x205F, 0x3000,
    0xFEFF].contains c.toNat

/-- The method `String.prototype.trim` on the characters of a string. -/
def trimChars (s : List Char) : List Char :=
  ((s.dropWhile isWhiteSpace).reverse.dropWhile isWhiteSpace).reverse

/-- The method `String.prototype.trim` on a string. -/
def trim (s : String) : String := ⟨trimChars s.data⟩

/-- The value of a run of decimal digits. -/
def digitsValue (ds : List Char) : Nat :=
  ds.foldl (fun acc c => 10 * acc + (c.toNat - 48)) 0

/-- The call `parseInt(s, 10)`; `none` is `NaN`. Leading white space is
skipped, one sign is read, then the longest run of decimal digits; what follows
the run is ignored. The source yields the double nearest to the integer
computed here, which is that integer as long as it is below `2^53` in absolute
value (any run of at most 15 digits); the embedding keeps the integer. -/
def parseInt (s : String) : Option Int :=
  let S := s.data.dropWhile isWhiteSpace
  let signed : Int × List Char :=
    match S with
    | c :: rest => if c = '-' then (-1, rest) else if c = '+' then (1, rest) else (1, S)
    | [] => (1, S)
  let Z := signed.2.takeWhile isDigit
  if Z.isEmpty then none else some (signed.1 * (digitsValue Z : Int))

/-- The expression `x?.trim() || d` on a node value `x` that may be missing:
`d` when `x` is missing or trims to the empty string. -/
def scalarText (x : Option String) (d : String) : String :=
  match x with
  | none => d
  | some s => if (trim s).data.isEmpty then d else trim s

/-- The expression `parseInt(v, 10) || 0`: `NaN` and zero give 0. -/
def parseIntOrZero (v : String) : Int :=
  match parseInt v with
  | none => 0
  | some n => n

/-- A numeric field of the record: `parseInt(x?.trim() || '0', 10) || 0`. -/
def numericField (x : Option String) : Int := parseIntOrZero (scalarText x "0")

/-- The image element `.frontCol img` of a card block: its attributes
`data-src` and `alt`, `none` when the attribute is missing. -/
structure FrontCol where
  data_src : Option String
  alt : Option String
deriving DecidableEq, Repr

/-- The panel `.backCol` of a card block. `cost`, `power`, `counter`, `color`
and `feature` hold `querySelector(...)?.childNodes[1]?.nodeValue` for the
element of that class: `none` when the element, its second child node or the
value of that node is missing. `text` and `getInfo` hold the `innerHTML` of the
element of that class, `none` when there is no such element. -/
structure BackCol where
  cost : Option String
  power : Option String
  counter : Option String
  color : Option String
  feature : Option String
  text : Option String
  getInfo : Option String
deriving DecidableEq, Repr

/-- A card block `.resultCol .modalCol`. `frontCol` and `backCol` are `none`
when `querySelector` finds no such element; `info1`, `info2`, `info3` are the
`textContent` of `.infoCol span:nth-child(k)`, `none` when there is no such
element. -/
structure ModalCol where
  frontCol : Option FrontCol
  backCol : Option BackCol
  info1 : Option String
  info2 : Option String
  info3 : Option String
deriving DecidableEq, Repr

/-- The record that `handleSeriesCardlist` builds for a card block and passes
to `saveSeriesDatabase`. `card_name` is `none` for `null`. -/
structure CardRecord where
  card_id : String
  card_name : Option String
  card_species : String
  card_type : String
  img_src : String
  cost : Int
  power : Int
  counter : Int
  color : String
  feature : String
  effect : String
  get_info : String
  series_id : String
deriving DecidableEq, Repr

/-- The rewriting of the free-text fields,
`.replace(/<h3[^>]*>.*?<\/h3>/gi, '').replace(/<br\s*\/?>/gi, ' ')`, which the
embedding leaves abstract. -/
structure Markup where
  replaceMarkup : String → String

/-- A free-text field: `x?.innerHTML.replace(...).replace(...).trim() || '-'`. -/
def freeText (mk : Markup) (x : Option String) : String :=
  scalarText (x.map mk.replaceMarkup) "-"

/-- The expression `s.split('?')[0]`: the text before the first `?`. -/
def splitQuery (s : String) : String := ⟨s.data.takeWhile fun c => c != '?'⟩

/-- The callback of `modalCols.map` in `handleSeriesCardlist`. The result is
`none` when the callback throws a `TypeError`: a missing `.backCol`, a missing
`.infoCol span`, or an image without `data-src`. -/
def cardOf (mk : Markup) (seriesId : String) (modalCol : ModalCol) : Option CardRecord := do
  let imgSrc ←
    match modalCol.frontCol with
    | some frontCol => frontCol.data_src.map splitQuery
    | none => some ""
  let cardName :=
    match modalCol.frontCol with
    | some frontCol => frontCol.alt
    | none => some ""
  let cardId ← modalCol.info1.map trim
  let cardSpecies ← modalCol.info2.map trim
  let cardType ← modalCol.info3.map trim
  let backCol ← modalCol.backCol
  let costValue := scalarText backCol.cost "0"
  let powerValue := scalarText backCol.power "0"
  let counterValue := scalarText backCol.counter "0"
  let colorValue := scalarText backCol.color "-"
  let featureValue := scalarText backCol.feature "-"
  let effectValue := freeText mk backCol.text
  let getInfo := freeText mk backCol.getInfo
  pure
    { card_id := cardId
      card_name := cardName
      card_species := cardSpecies
      card_type := cardType
      img_src := imgSrc
      cost := parseIntOrZero costValue
      power := parseIntOrZero powerValue
      counter := parseIntOrZero counterValue
      color := colorValue
      feature := featureValue
      effect := effectValue
      get_info := getInfo
      series_id := seriesId }

/-- The numeric fields of a record. -/
inductive NumericField where
  | cost
  | power
  | counter
deriving DecidableEq, Repr

/-- The text of a numeric field in the panel of a card block. -/
def NumericField.text (f : NumericField) (b : BackCol) : Option String :=
  match f with
  | .cost => b.cost
  | .power => b.power
  | .counter => b.counter

/-- The value of a numeric field in a record. -/
def NumericField.value (f : NumericField) (r : CardRecord) : Int :=
  match f with
  | .cost => r.cost
  | .power => r.power
  | .counter => r.counter

/-- The scalar text fields of a record. -/
inductive TextField where
  | color
  | feature
deriving DecidableEq, Repr

/-- The text of a scalar text field in the panel of a card block. -/
def TextField.text (f : TextField) (b : BackCol) : Option String :=
  match f with
  | .color => b.color
  | .feature => b.feature

/-- The value of a scalar text field in a record. -/
def TextField.value (f : TextField) (r : CardRecord) : String :=
  match f with
  | .color => r.color
  | .feature => r.feature

/-- A card block that `cardOf` turns into a record: it has a `.backCol`, the
three `.infoCol span`s, and its image, if any, has a `data-src`. -/
def ModalCol.complete (m : ModalCol) : Prop :=
  m.backCol.isSome = true ∧ m.info1.isSome = true ∧ m.info2.isSome = true ∧
    m.info3.isSome = true ∧ ∀ f, m.frontCol = some f → f.data_src.isSome = true

/-- In the words of the specification: the text is a number, that is, once
trimmed, a decimal numeral: an optional sign, digits and an optional fraction. -/
def isNumber (s : String) : Bool :=
  let t := trimChars s.data
  let u :=
    match t with
    | c :: rest => if c = '+' ∨ c = '-' then rest else t
    | [] => t
  let ds := u.takeWhile isDigit
  !ds.isEmpty &&
    match u.dropWhile isDigit with
    | [] => true
    | c :: fs => c == '.' && !fs.isEmpty && fs.all isDigit

/-- The markup rewriting used in the examples: the text has no markup. -/
def noMarkup : Markup := ⟨fun s => s⟩

/-- A panel with the given cost, power and counter texts. -/
def samplePanel (cost power counter : Option String) : BackCol :=
  { cost := cost, power := power, counter := counter, color := some " Red ", feature := none,
    text := some "-", getInfo := none }

/-- A card block with the given panel. -/
def sampleBlock (b : BackCol) : ModalCol :=
  { frontCol := some { data_src := some "/images/cardlist/card/OP05-002_p1.png?v=2",
                       alt := some "Edward.Newgate" }
    backCol := some b
    info1 := some "OP05-002"
    info2 := some "L"
    info3 := some "LEADER" }

/-! ## JavaScript objects with string values -/

/-- The own properties of a JavaScript object whose values are strings, in
property order, the order of `Object.entries`: first the keys that are array
indices, in ascending numeric order, then the other keys in the order in which
they were created. -/
abbrev JsObject := List (String × String)

/-- The number denoted by a key that is an array index: a canonical decimal
numeral below `2^32 - 1`. -/
def arrayIndex (k : String) : Option Nat :=
  if !k.data.isEmpty && k.data.all isDigit && (k.data.head? != some '0' || k.data.length == 1)
      && decide (digitsValue k.data < 2 ^ 32 - 1) then
    some (digitsValue k.data)
  else none

/-- Insertion of a new array-index key `k`, of index `n`, at its place among
the array-index keys. -/
def insertIndexKey (n : Nat) (k v : String) : JsObject → JsObject
  | [] => [(k, v)]
  | e :: es =>
    match arrayIndex e.1 with
    | some m => if m < n then e :: insertIndexKey n k v es else (k, v) :: e :: es
    | none => (k, v) :: e :: es

/-- The assignment `o[k] = v` of a string `v` on an object made by `{}`. For
the key `__proto__` the assignment calls the setter that the object inherits
from `Object.prototype`, which ignores a value that is a string: the object
gets no property. -/
def JsObject.set (o : JsObject) (k v : String) : JsObject :=
  if k = "__proto__" then o
  else if o.any (fun e => e.1 == k) then o.map fun e => if e.1 == k then (k, v) else e
  else
    match arrayIndex k with
    | some n => insertIndexKey n k v o
    | none => o ++ [(k, v)]

/-! ## `saveCardSeriesList` and `getCardSeriesList` -/

/-- The table `cards_series`: rows `(series_id, series_name)`. -/
abbrev SeriesTable := List (String × String)

/-- The statement
`INSERT OR REPLACE INTO cards_series (series_id, series_name) VALUES (?, ?)`:
a row with the same `series_id` (the primary key) is deleted, then the new row
is stored at the end of the table. -/
def insertOrReplace (t : SeriesTable) (row : String × String) : SeriesTable :=
  t.filter (fun r => r.1 != row.1) ++ [row]

/-- The method `saveCardSeriesList` on the table `cards_series`, `none` when
the table does not exist yet: the table is created if need be, then every entry
of `Object.entries(seriesCardlistData)` is stored by `INSERT OR REPLACE`. -/
def saveCardSeriesList (cards_series : Option SeriesTable) (seriesCardlistData : JsObject) :
    Option SeriesTable :=
  some (seriesCardlistData.foldl insertOrReplace (cards_series.getD []))

/-- An object of class `Common` as far as `getCardSeriesList` uses it: the
value of its property `processSeriesName`, `none` when the property is
`undefined`. -/
structure Common where
  processSeriesName : Option (String → String)

/-- The object `new Common()`. The class of `Common.js` declares the methods
`getScriptDirectory` and `getUserChoiceLanguageUrl` and nothing else, so the
property `processSeriesName` of its objects is `undefined`. -/
def Common.create : Common := ⟨none⟩

/-- The callback of `page.$$eval` in `getCardSeriesList`, on the
`(textContent, value)` pairs of the `option` elements: both texts are trimmed
and the options with an empty `seriesId` are filtered out. The result pairs are
`(seriesName, seriesId)`. -/
def seriesOptions (elements : List (String × String)) : List (String × String) :=
  (elements.map fun e => (trim e.1, trim e.2)).filter fun o => !o.2.data.isEmpty

/-- The loop that fills `optionDict`. The call
`this.common.processSeriesName(seriesName)` throws a `TypeError` when the
property is `undefined`; the result is then the message of the error. -/
def buildOptionDict (common : Common) :
    List (String × String) → JsObject → Except String JsObject
  | [], optionDict => .ok optionDict
  | (seriesName, seriesId) :: options, optionDict =>
    match common.processSeriesName with
    | none => .error "this.common.processSeriesName is not a function"
    | some f => buildOptionDict common options (optionDict.set seriesId (f seriesName))

/-- The method `getCardSeriesList` once the page is loaded, on the `option`
elements of the page and the table `cards_series`. The result is the table
after the call and the messages written to the error log. -/
def getCardSeriesList (common : Common) (elements : List (String × String))
    (cards_series : Option SeriesTable) : Option SeriesTable × List String :=
  match buildOptionDict common (seriesOptions elements) [] with
  | .ok optionDict => (saveCardSeriesList cards_series optionDict, [])
  | .error message => (cards_series, ["getCardSeriesList : " ++ message])

/-- The series options of the example of the specification. -/
def exampleOptions : List (String × String) :=
  [("Romance Dawn", "OP01"), ("", ""), ("Paramount War", "OP02")]

/-! ## `saveSeriesDatabase` -/

/-- The `cid` that `AUTOINCREMENT` gives to the next row of `cards_info`: one
more than the largest `cid` of the table. No row of `cards_info` is ever
deleted, so the largest `cid` ever used is the largest one present. -/
def nextCid (cards_info : List CardInfoRow) : Nat :=
  (cards_info.map fun r => r.cid).foldl max 0 + 1

/-- The row stored for a record under the given `cid`. -/
def cardInfoRow (cid : Nat) (c : CardRecord) : CardInfoRow :=
  { cid := cid
    card_id := c.card_id
    card_name := c.card_name
    card_species := c.card_species
    card_type := c.card_type
    img_src := c.img_src
    cost := c.cost
    power := c.power
    counter := c.counter
    color := c.color
    feature := c.feature
    effect := c.effect
    get_info := c.get_info
    series_id := c.series_id }

/-- The columns of a row of `cards_info` other than `cid`. -/
def CardInfoRow.record (r : CardInfoRow) : CardRecord :=
  { card_id := r.card_id
    card_name := r.card_name
    card_species := r.card_species
    card_type := r.card_type
    img_src := r.img_src
    cost := r.cost
    power := r.power
    counter := r.counter
    color := r.color
    feature := r.feature
    effect := r.effect
    get_info := r.get_info
    series_id := r.series_id }

/-- The loop `for (const cardInfo of cardSeriesList) stmt.run(...)` of
`saveSeriesDatabase`, from the statement number `k` on. `failAt` is the number
of the statement whose `run` throws, if any (the statements are numbered from
0); the loop then stops and the error is logged by the `catch` block. The
statements run outside any transaction, so the rows stored before the failure
stay. The result is the table and whether an error was caught. -/
def insertLoop (failAt : Option Nat) :
    Nat → List CardInfoRow → List CardRecord → List CardInfoRow × Bool
  | _, cards_info, [] => (cards_info, false)
  | k, cards_info, cardInfo :: rest =>
    if failAt = some k then (cards_info, true)
    else insertLoop failAt (k + 1) (cards_info ++ [cardInfoRow (nextCid cards_info) cardInfo]) rest

/-- The method `saveSeriesDatabase` on the table `cards_info` (empty when the
call creates it). -/
def saveSeriesDatabase (failAt : Option Nat) (cards_info : List CardInfoRow)
    (cardSeriesList : List CardRecord) : List CardInfoRow × Bool :=
  insertLoop failAt 0 cards_info cardSeriesList

/-- Two records of the same card, as two runs of the extraction store them. -/
def sampleRecords : List CardRecord :=
  [(sampleRow 0 "OP05-002" "/images/cardlist/card/OP05-002.png").record,
   (sampleRow 0 "OP05-002" "/images/cardlist/card/OP05-002_p1.png").record]

/-! ## `fetchCardInfoWithSeriesId` -/

/-- An element of the list that `fetchCardInfoWithSeriesId` returns. -/
structure DownloadInfo where
  cid : Nat
  img_src : String
  series_name : String
deriving DecidableEq, Repr

/-- A row of the join of `fetchCardInfoWithSeriesId`: a row `cii` of
`cards_image_info`, a row `ci` of the normalised `cards_info` and a row
`sc = (series_id, series_name)` of `cards_series`. -/
structure JoinedRow where
  cii : ImageInfoRow
  ci : NewCardInfoRow
  sc : String × String
deriving DecidableEq, Repr

/-- The rows of
`cards_image_info cii INNER JOIN cards_info ci ON ci.cid = cii.cid
INNER JOIN cards_series sc ON cii.series_id = sc.series_id`. A `NULL` `cid`
matches no row. The order of the rows of a join is the choice of the query
planner; the embedding takes the nested loops in the order of the query. -/
def joinRows (cards_image_info : List ImageInfoRow) (cards_info : List NewCardInfoRow)
    (cards_series : SeriesTable) : List JoinedRow :=
  cards_image_info.flatMap fun cii =>
    (cards_info.filter fun ci => cii.cid == some ci.cid).flatMap fun ci =>
      (cards_series.filter fun sc => cii.series_id == sc.1).map fun sc =>
        { cii := cii, ci := ci, sc := sc }

/-- The comparison of `ORDER BY sc.series_name, sc.series_id` on two rows
`(series_id, series_name)` of `cards_series`. -/
def seriesOrderLe (a b : String × String) : Bool :=
  textLt a.2 b.2 || (a.2 == b.2 && textLe a.1 b.1)

/-- The rows of the join in the order of
`ORDER BY sc.series_name, sc.series_id`. -/
def orderedJoin (cards_image_info : List ImageInfoRow) (cards_info : List NewCardInfoRow)
    (cards_series : SeriesTable) : List JoinedRow :=
  List.insertionSort (fun a b => seriesOrderLe a.sc b.sc = true)
    (joinRows cards_image_info cards_info cards_series)

/-- The method `fetchCardInfoWithSeriesId` on a normalised store: the columns
`ci.cid, cii.img_src, sc.series_name` of the ordered join. -/
def fetchCardInfoWithSeriesId (cards_image_info : List ImageInfoRow)
    (cards_info : List NewCardInfoRow) (cards_series : SeriesTable) : List DownloadInfo :=
  (orderedJoin cards_image_info cards_info cards_series).map fun row =>
    { cid := row.ci.cid, img_src := row.cii.img_src, series_name := row.sc.2 }

/-! ## `loadCardInfo`, `handleSeriesCardlist` and `handleAllCardList` -/

/-- The method `loadCardInfo` on the table `cards_series`: the object filled by
`cardInfos[row.series_id] = row.series_name` over the rows of the table, and
the messages written to the error log. Without the table the `SELECT` throws,
the error is logged and the object stays empty. -/
def loadCardInfo (cards_series : Option SeriesTable) : JsObject × List String :=
  match cards_series with
  | none => ([], ["loadCardInfo : no such table: cards_series"])
  | some rows => (rows.foldl (fun cardInfos row => cardInfos.set row.1 row.2) [], [])

/-- What the site and the browser do when `handleSeriesCardlist` is called for
a series. `launchFails`: `puppeteer.launch` or `browser.newPage` rejects, which
happens before the `try` block. `pageFails`: `page.goto` or `page.$$eval`
rejects, inside the `try` block. `loaded`: the page is evaluated on the given
card blocks, and `failAt` tells which insert of `saveSeriesDatabase` fails, if
any. The closing of the browser in the `finally` block is taken to succeed. -/
inductive Extraction where
  | launchFails (message : String)
  | pageFails (message : String)
  | loaded (modalCols : List ModalCol) (failAt : Option Nat)
deriving DecidableEq, Repr

/-- The state of a run of `handleAllCardList`: the tables `cards_series` and
`cards_info`, the error log, and the series ids that `handleSeriesCardlist` was
called with so far (which is no part of the store; it records the calls). In
the log the embedding writes a fixed text for the message of an error whose
text the browser or the database produces. -/
structure RunState where
  cards_series : Option SeriesTable
  cards_info : List CardInfoRow
  log : List String
  called : List String
deriving DecidableEq, Repr

/-- The array `modalCols.map(...)` of `handleSeriesCardlist`: `none` when the
callback throws for one of the blocks. -/
def cardsOf (mk : Markup) (seriesId : String) : List ModalCol → Option (List CardRecord)
  | [] => some []
  | modalCol :: rest =>
    match cardOf mk seriesId modalCol with
    | none => none
    | some card =>
      match cardsOf mk seriesId rest with
      | none => none
      | some cards => some (card :: cards)

/-- The method `handleSeriesCardlist`. The second component is the message of
the error that the call throws, `none` when the call returns. An error of the
`try` block is logged by the `catch` block; an error of `saveSeriesDatabase` is
caught and logged by `saveSeriesDatabase` itself. -/
def handleSeriesCardlist (mk : Markup) (visit : Extraction) (seriesId : String) (s : RunState) :
    RunState × Option String :=
  let s1 := { s with called := s.called ++ [seriesId] }
  match visit with
  | .launchFails message => (s1, some message)
  | .pageFails message =>
    ({ s1 with log := s1.log ++ ["handleSeriesCardlist : " ++ message] }, none)
  | .loaded modalCols failAt =>
    match cardsOf mk seriesId modalCols with
    | none => ({ s1 with log := s1.log ++ ["handleSeriesCardlist : Evaluation failed"] }, none)
    | some cards =>
      let saved := saveSeriesDatabase failAt s1.cards_info cards
      ({ s1 with
          cards_info := saved.1
          log := if saved.2 then s1.log ++ ["saveSeriesDatabase : insert failed"] else s1.log },
        none)

/-- The test `targetSeries.length == 0 || targetSeries.includes(seriesId)`. -/
def isTargeted (targetSeries : List String) (seriesId : String) : Bool :=
  targetSeries.length == 0 || targetSeries.contains seriesId

/-- The loop `for (const [seriesId, seriesName] of Object.entries(...))` of
`handleAllCardList`, where `site` tells what happens at the call for each
series. The loop ends when a call throws; the second component is then the
message of the error. -/
def seriesLoop (mk : Markup) (site : String → Extraction) (targetSeries : List String) :
    List (String × String) → RunState → RunState × Option String
  | [], s => (s, none)
  | entry :: rest, s =>
    if isTargeted targetSeries entry.1 then
      match handleSeriesCardlist mk (site entry.1) entry.1 s with
      | (s1, some message) => (s1, some message)
      | (s1, none) => seriesLoop mk site targetSeries rest s1
    else seriesLoop mk site targetSeries rest s

/-- The series index of a run of `handleAllCardList`: the entries of the
object that `loadCardInfo` returns after `getCardSeriesList`. -/
def seriesIndex (common : Common) (elements : List (String × String))
    (cards_series : Option SeriesTable) : List (String × String) :=
  (loadCardInfo (getCardSeriesList common elements cards_series).1).1

/-- The state of the run after the calls of `getCardSeriesList` and
`loadCardInfo`, with which `handleAllCardList` starts. -/
def afterDiscovery (common : Common) (elements : List (String × String)) (s : RunState) :
    RunState :=
  { s with
    cards_series := (getCardSeriesList common elements s.cards_series).1
    log := s.log ++ (getCardSeriesList common elements s.cards_series).2 ++
      (loadCardInfo (getCardSeriesList common elements s.cards_series).1).2 }

/-- The method `handleAllCardList`, in a run in which the browser of
`getCardSeriesList` starts and loads the page with the given `option`
elements: the series discovery, the loading of the index, then the loop over
the entries of the index. An error thrown in the loop is logged by the `catch`
block. -/
def handleAllCardList (common : Common) (elements : List (String × String)) (mk : Markup)
    (site : String → Extraction) (targetSeries : List String) (s : RunState) : RunState :=
  match seriesLoop mk site targetSeries (seriesIndex common elements s.cards_series)
      (afterDiscovery common elements s) with
  | (s2, none) => s2
  | (s2, some message) => { s2 with log := s2.log ++ ["handleAllCardList : " ++ message] }

/-- The entries of the index that the loop selects. -/
def targetedEntries (targetSeries : List String) (index : List (String × String)) :
    List (String × String) :=
  index.filter fun entry => isTargeted targetSeries entry.1

/-- The messages that a call of `handleSeriesCardlist` that returns writes to
the error log. -/
def visitLog (mk : Markup) (seriesId : String) (visit : Extraction) : List String :=
  match visit with
  | .launchFails _ => []
  | .pageFails message => ["handleSeriesCardlist : " ++ message]
  | .loaded modalCols failAt =>
    match cardsOf mk seriesId modalCols with
    | none => ["handleSeriesCardlist : Evaluation failed"]
    | some cards =>
      if (saveSeriesDatabase failAt [] cards).2 then ["saveSeriesDatabase : insert failed"] else []

/-- The browser starts and opens a page: the call of `handleSeriesCardlist`
reaches its `try` block. -/
def Extraction.launches (visit : Extraction) : Bool :=
  match visit with
  | .launchFails _ => false
  | _ => true

/-- The extraction of a series fails after the browser has opened the page: at
the navigation or the evaluation of the page, in the callback of the
evaluation, or at an insert. -/
def Extraction.failsInside (mk : Markup) (seriesId : String) (visit : Extraction) : Bool :=
  match visit with
  | .launchFails _ => false
  | .pageFails _ => true
  | .loaded modalCols failAt =>
    match cardsOf mk seriesId modalCols with
    | none => true
    | some cards => (saveSeriesDatabase failAt [] cards).2

/-- A store with three series, as a series discovery of an earlier run would
leave it. -/
def sampleStore : RunState :=
  { cards_series := some [("569102", "PARAMOUNT WAR"), ("569101", "ROMANCE DAWN"),
      ("569201", "EXTRA BOOSTER")]
    cards_info := []
    log := []
    called := [] }

/-- A site on which the page of series `569101` fails to load and the pages of
the other series show one card block. -/
def sampleSite (seriesId : String) : Extraction :=
  if seriesId = "569101" then .pageFails "net::ERR_CONNECTION_RESET"
  else .loaded [sampleBlock (samplePanel (some "2") (some "5000") none)] none

/-- A site on which the browser does not start for series `569101`. -/
def brokenSite (seriesId : String) : Extraction :=
  if seriesId = "569101" then .launchFails "Failed to launch the browser process"
  else .loaded [sampleBlock (samplePanel (some "2") (some "5000") none)] none

/-! ## `downloadImage` and the fetch loop of `index.js` -/

/-- A URL record as `new URL(...)` builds it: the text up to the path
(scheme and host), the segments of the path, and the query and the fragment,
`none` when the URL has none. -/
structure Url where
  origin : List Char
  path : List (List Char)
  query : Option (List Char)
  fragment : Option (List Char)
deriving DecidableEq, Repr

/-- The texts between the `/` of a text. -/
def splitOnSlash : List Char → List (List Char)
  | [] => [[]]
  | c :: cs =>
    if c = '/' then [] :: splitOnSlash cs
    else
      match splitOnSlash cs with
      | segment :: segments => (c :: segment) :: segments
      | [] => [[c]]

/-- A single-dot path segment of the URL parser: `.` or `%2e`, in either case
of the letter. -/
def isSingleDot (buffer : List Char) : Bool :=
  [".".data, "%2e".data, "%2E".data].contains buffer

/-- A double-dot path segment of the URL parser: two single-dot segments in a
row, that is `..`, `.%2e`, `%2e.` or `%2e%2e`, in either case of the
letters. -/
def isDoubleDot (buffer : List Char) : Bool :=
  ["..".data, ".%2e".data, ".%2E".data, "%2e.".data, "%2E.".data, "%2e%2e".data,
    "%2e%2E".data, "%2E%2e".data, "%2E%2E".data].contains buffer

/-- The path state of the URL parser on the segments of the input: a
double-dot segment removes the last segment of the path, a single-dot segment
is skipped, and either of them leaves an empty segment when it ends the
input. -/
def pathState : List (List Char) → List (List Char) → List (List Char)
  | path, [] => path
  | path, [buffer] =>
    if isDoubleDot buffer then path.dropLast ++ [[]]
    else if isSingleDot buffer then path ++ [[]]
    else path ++ [buffer]
  | path, buffer :: rest =>
    if isDoubleDot buffer then pathState path.dropLast rest
    else if isSingleDot buffer then pathState path rest
    else pathState (path ++ [buffer]) rest

/-- The two values of `languageUrl`, those that `getUserChoiceLanguageUrl`
returns: origins without a path. -/
def languageUrls : List String :=
  ["https://www.onepiece-cardgame.com", "https://asia-tw.onepiece-cardgame.com"]

/-- A character that the URL parser copies unchanged into a path, a query and a
fragment and that starts neither a scheme nor a port: an ASCII letter or digit
or one of `-._~/?#=&%`. -/
def isReferenceChar (c : Char) : Bool :=
  (decide (65 ≤ c.toNat) && decide (c.toNat ≤ 90)) ||
    (decide (97 ≤ c.toNat) && decide (c.toNat ≤ 122)) || isDigit c ||
    "-._~/?#=&%".data.contains c

/-- The image references that the embedding of `new URL` covers: texts made of
the characters of `isReferenceChar` that do not start with `//`. Such a text
has no scheme and no host, no white space, no backslash and no character that
the parser percent-encodes, so that it is parsed as a path, absolute or
relative, with an optional query and fragment. -/
def isPlainReference (imgSrc : String) : Bool :=
  imgSrc.data.all isReferenceChar && !(imgSrc.data.take 2 == ['/', '/'])

/-- The call `new URL(imgSrc, languageUrl)` for a base that is one of
`languageUrls` and a reference that satisfies `isPlainReference`. Outside them
(a reference with a scheme or a host, a character that the parser removes,
replaces or percent-encodes, a base with a path) the record is not the one
that `new URL` builds, and no statement is made there. -/
def resolve (imgSrc languageUrl : String) : Url :=
  let beforeFragment := imgSrc.data.takeWhile fun c => c != '#'
  let fragment :=
    match imgSrc.data.dropWhile fun c => c != '#' with
    | [] => none
    | _ :: f => some f
  let pathPart := beforeFragment.takeWhile fun c => c != '?'
  let query :=
    match beforeFragment.dropWhile fun c => c != '?' with
    | [] => none
    | _ :: q => some q
  let path :=
    match pathPart with
    | [] => [[]]
    | c :: rest =>
      if c = '/' then pathState [] (splitOnSlash rest) else pathState [] (splitOnSlash pathPart)
  { origin := languageUrl.data, path := path, query := query, fragment := fragment }

/-- The part of the serialised URL for the query: `?` and the query. -/
def Url.querySuffix (u : Url) : List Char :=
  match u.query with
  | none => []
  | some q => '?' :: q

/-- The part of the serialised URL for the fragment: `#` and the fragment. -/
def Url.fragmentSuffix (u : Url) : List Char :=
  match u.fragment with
  | none => []
  | some f => '#' :: f

/-- The serialisation `url.toString()`. -/
def Url.toString (u : Url) : List Char :=
  u.origin ++ (u.path.flatMap fun segment => '/' :: segment) ++ u.querySuffix ++ u.fragmentSuffix

/-- The function `path.basename` (POSIX): trailing `/` are dropped, and the
result is the text after the last `/` that remains. -/
def basename (p : List Char) : List Char :=
  ((p.reverse.dropWhile fun c => c == '/').takeWhile fun c => c != '/').reverse

/-- The `fileName` of `downloadImage`:
`path.basename(new URL(imgSrc, languageUrl).toString())`. -/
def downloadFileName (imgSrc languageUrl : String) : String :=
  ⟨basename (resolve imgSrc languageUrl).toString⟩

/-- A row of `files_info`. The column `file_path` is
`path.join(scriptDirectory, 'images', seriesName, fileName)`, of which the
embedding keeps the last two components. -/
structure FileInfoRow where
  cid : Nat
  series_name : String
  file_name : String
deriving DecidableEq, Repr

/-- What happens to the directory creation, the transfer `axios.get` and the
write `fs.writeFileSync` of one call of `downloadImage`: all succeed, or one of
them throws an error with the given message. -/
inductive Transfer where
  | saved
  | failed (message : String)
deriving DecidableEq, Repr

/-- The state of the fetch stage: the table `files_info`, the error log, and
the items that `downloadImage` was called with so far (which is no part of the
store; it records the calls). -/
structure FetchState where
  files_info : List FileInfoRow
  log : List String
  called : List DownloadInfo
deriving DecidableEq, Repr

/-- The method `downloadImage`. Its body has no `try` block: the
`catch(err) { ... }` that follows the closing brace of the method is a
separate method of the class, named `catch`, that nothing calls. The second
component is the message of the error that the call throws, `none` when the
call returns. -/
def downloadImage (languageUrl : String) (transfer : Transfer) (cardInfo : DownloadInfo)
    (s : FetchState) : FetchState × Option String :=
  let s1 := { s with called := s.called ++ [cardInfo] }
  match transfer with
  | .failed message => (s1, some message)
  | .saved =>
    ({ s1 with
        files_info := s1.files_info ++
          [{ cid := cardInfo.cid
             series_name := cardInfo.series_name
             file_name := downloadFileName cardInfo.img_src languageUrl }] },
      none)

/-- The loop `for (const cardInfo of allCardsInfo)` of `index.js` from the
item number `k` on, where `transfers` tells what happens at the call for each
item number. The loop ends when a call throws. -/
def fetchLoop (languageUrl : String) (transfers : Nat → Transfer) :
    Nat → List DownloadInfo → FetchState → FetchState × Option String
  | _, [], s => (s, none)
  | k, cardInfo :: rest, s =>
    match downloadImage languageUrl (transfers k) cardInfo s with
    | (s1, some message) => (s1, some message)
    | (s1, none) => fetchLoop languageUrl transfers (k + 1) rest s1

/-- The fetch stage of `index.js`: the loop, inside the `try` block of the
main function, whose `catch` block logs the error that ends the loop. -/
def fetchImages (languageUrl : String) (transfers : Nat → Transfer)
    (allCardsInfo : List DownloadInfo) (s : FetchState) : FetchState :=
  match fetchLoop languageUrl transfers 0 allCardsInfo s with
  | (s1, none) => s1
  | (s1, some message) => { s1 with log := s1.log ++ ["錯誤訊息： " ++ message] }

/-- A worklist of two images of one series. -/
def sampleWorklist : List DownloadInfo :=
  [{ cid := 1, img_src := "/images/cardlist/card/OP05-002.png", series_name := "OP05" },
   { cid := 1, img_src := "/images/cardlist/card/OP05-002_p1.png", series_name := "OP05" }]

/-- The transfer of the first item fails, the others succeed. -/
def firstTransferFails (k : Nat) : Transfer :=
  if k = 0 then .failed "timeout of 0ms exceeded" else .saved

/-- The empty state of the fetch stage. -/
def emptyFetchState : FetchState := { files_info := [], log := [], called := [] }

/-! ## Helper lemmas: the collation -/

theorem binaryLe_total (a b : List Char) : binaryLe a b = true ∨ binaryLe b a = true := by
  induction a generalizing b with
  | nil => left; simp [binaryLe]
  | cons x xs ih =>
    cases b with
    | nil => right; simp [binaryLe]
    | cons y ys =>
      simp only [binaryLe]
      rcases Nat.lt_trichotomy x.toNat y.toNat with h | h | h
      · left; simp [h]
      · have h1 : ¬ x.toNat < y.toNat := by omega
        have h2 : ¬ y.toNat < x.toNat := by omega
        simp only [h1, h2, if_false]
        exact ih ys
      · right; simp [h]

theorem binaryLe_trans (a b c : List Char) (hab : binaryLe a b = true) (hbc : binaryLe b c = true) :
    binaryLe a c = true := by
  induction a generalizing b c with
  | nil => simp [binaryLe]
  | cons x xs ih =>
    cases b with
    | nil => simp [binaryLe] at hab
    | cons y ys =>
      cases c with
      | nil => simp [binaryLe] at hbc
      | cons z zs =>
        simp only [binaryLe] at hab hbc ⊢
        by_cases hxy : x.toNat < y.toNat
        · by_cases hyz : y.toNat < z.toNat
          · have : x.toNat < z.toNat := by omega
            simp [this]
          · by_cases hzy : z.toNat < y.toNat
            · simp [hyz, hzy] at hbc
            · have : x.toNat < z.toNat := by omega
              simp [this]
        · by_cases hyx : y.toNat < x.toNat
          · simp [hxy, hyx] at hab
          · simp only [hxy, hyx, if_false] at hab
            by_cases hyz : y.toNat < z.toNat
            · have : x.toNat < z.toNat := by omega
              simp [this]
            · by_cases hzy : z.toNat < y.toNat
              · simp [hyz, hzy] at hbc
              · simp only [hyz, hzy, if_false] at hbc
                have h1 : ¬ x.toNat < z.toNat := by omega
                have h2 : ¬ z.toNat < x.toNat := by omega
                simp only [h1, h2, if_false]
                exact ih ys zs hab hbc

theorem char_eq_of_toNat_eq {x y : Char} (h : x.toNat = y.toNat) : x = y := by
  apply Char.ext
  apply UInt32.ext
  exact h

/-- The comparison `binaryLe` is the order of Lean on lists of characters. -/
theorem binaryLe_iff_not_lt (a b : List Char) : binaryLe a b = true ↔ ¬ b < a := by
  induction a generalizing b with
  | nil =>
    simp only [binaryLe, true_iff]
    intro h; cases h
  | cons x xs ih =>
    cases b with
    | nil =>
      simp only [binaryLe, Bool.false_eq_true, false_iff, not_not]
      exact List.Lex.nil
    | cons y ys =>
      have hc : ∀ p q : Char, p < q ↔ p.toNat < q.toNat := fun p q => Iff.rfl
      simp only [binaryLe]
      by_cases h1 : x.toNat < y.toNat
      · simp only [h1, if_true, true_iff]
        intro h
        cases h with
        | cons h => omega
        | rel h => rw [hc] at h; omega
      · by_cases h2 : y.toNat < x.toNat
        · simp only [h1, h2, if_true, if_false, Bool.false_eq_true, false_iff, not_not]
          exact List.Lex.rel ((hc _ _).mpr h2)
        · simp only [h1, h2, if_false]
          rw [ih ys]
          have hxy : x = y := char_eq_of_toNat_eq (by omega)
          subst hxy
          constructor
          · intro h h2
            cases h2 with
            | cons h3 => exact h h3
            | rel h3 => rw [hc] at h3; omega
          · intro h h2
            exact h (List.Lex.cons h2)

/-- The comparison `textLt` is the order `<` of Lean on strings. -/
theorem textLt_iff_lt (a b : String) : textLt a b = true ↔ a < b := by
  rw [String.lt_iff_toList_lt]
  unfold textLt textLe
  rw [Bool.not_eq_true', ← Bool.not_eq_true, binaryLe_iff_not_lt, not_not]
  rfl

theorem textLe_refl (a : String) : textLe a a = true := by
  rcases binaryLe_total a.data a.data with h | h <;> exact h

/-! ## Helper lemmas: the window order -/

theorem windowOrder_perm (t : List CardInfoRow) : (windowOrder t).Perm t.enum :=
  List.perm_insertionSort _ _

theorem windowOrder_length (t : List CardInfoRow) : (windowOrder t).length = t.length := by
  simp [windowOrder, List.length_insertionSort, List.enum_length]

theorem windowOrder_sorted (t : List CardInfoRow) :
    (windowOrder t).Pairwise (fun a b => textLe a.2.card_id b.2.card_id = true) :=
  @List.sorted_insertionSort _ (fun a b : Nat × CardInfoRow => textLe a.2.card_id b.2.card_id = true) _
    ⟨fun _ _ => binaryLe_total _ _⟩ ⟨fun _ _ _ h1 h2 => binaryLe_trans _ _ _ h1 h2⟩ t.enum

theorem windowOrder_tags_perm (t : List CardInfoRow) :
    ((windowOrder t).map Prod.fst).Perm (List.range t.length) := by
  have h := (windowOrder_perm t).map Prod.fst
  rwa [List.enum_map_fst] at h

theorem windowOrder_tags_nodup (t : List CardInfoRow) : ((windowOrder t).map Prod.fst).Nodup :=
  (windowOrder_tags_perm t).nodup_iff.mpr (List.nodup_range _)

theorem mem_windowOrder {t : List CardInfoRow} {p : Nat × CardInfoRow} :
    p ∈ windowOrder t ↔ t[p.1]? = some p.2 := by
  rw [(windowOrder_perm t).mem_iff]
  exact List.mk_mem_enum_iff_getElem?

theorem canonicalPos_lt {t : List CardInfoRow} {i : Nat} (hi : i < t.length) :
    canonicalPos t i < (windowOrder t).length := by
  have h : i ∈ (windowOrder t).map Prod.fst := by
    rw [(windowOrder_tags_perm t).mem_iff]; simpa using hi
  have := List.indexOf_lt_length.mpr h
  simpa [canonicalPos] using this

theorem windowOrder_at_canonicalPos {t : List CardInfoRow} {i : Nat} (hi : i < t.length) :
    (windowOrder t)[canonicalPos t i]? = some (i, t[i]) := by
  have hlt := canonicalPos_lt hi
  have h1 : ((windowOrder t).map Prod.fst)[canonicalPos t i]? = some i := by
    unfold canonicalPos
    rw [List.getElem?_eq_getElem (by simpa [canonicalPos] using hlt)]
    exact congrArg some (List.getElem_indexOf _)
  rw [List.getElem?_eq_getElem hlt]
  rw [List.getElem?_map, List.getElem?_eq_getElem hlt] at h1
  simp only [Option.map_some', Option.some.injEq] at h1
  have hmem : (windowOrder t)[canonicalPos t i] ∈ windowOrder t := List.getElem_mem _
  rw [mem_windowOrder, h1, List.getElem?_eq_getElem hi] at hmem
  injection hmem with hmem
  exact congrArg some (Prod.ext h1 hmem.symm)

theorem canonicalPos_of_at {t : List CardInfoRow} {k : Nat} {p : Nat × CardInfoRow}
    (hk : (windowOrder t)[k]? = some p) : canonicalPos t p.1 = k ∧ t[p.1]? = some p.2 := by
  obtain ⟨hlt, hp⟩ := List.getElem?_eq_some_iff.mp hk
  have h := List.indexOf_getElem (windowOrder_tags_nodup t) k (by simpa using hlt)
  rw [List.getElem_map, hp] at h
  refine ⟨by simpa [canonicalPos] using h, ?_⟩
  have hmem : p ∈ windowOrder t := hp ▸ List.getElem_mem _
  exact mem_windowOrder.mp hmem

theorem pair_sublist_of_lt {α : Type} (l : List α) {i j : Nat} (hij : i < j) (hj : j < l.length) :
    [l[i], l[j]].Sublist l := by
  have hi : i < l.length := by omega
  have h1 : l.take i ++ l[i] :: l.drop (i + 1) = l := by
    rw [List.getElem_cons_drop, List.take_append_drop]
  have h2 : l[j] ∈ l.drop (i + 1) := by
    rw [List.mem_iff_getElem]
    refine ⟨j - (i + 1), by simp; omega, ?_⟩
    simp only [List.getElem_drop]
    congr 1; omega
  have h3 : [l[i], l[j]].Sublist (l[i] :: l.drop (i + 1)) :=
    List.Sublist.cons₂ _ (List.singleton_sublist.mpr h2)
  have h4 : [l[i], l[j]].Sublist (l.take i ++ l[i] :: l.drop (i + 1)) :=
    List.sublist_append_of_sublist_right h3
  rwa [h1] at h4

theorem indexOf_lt_of_pair_sublist {l : List Nat} (hn : l.Nodup) {x y : Nat}
    (h : [x, y].Sublist l) : l.indexOf x < l.indexOf y := by
  induction l with
  | nil => cases h
  | cons a l ih =>
    rw [List.nodup_cons] at hn
    cases h with
    | cons _ h' =>
      have hx : x ∈ l := h'.subset (by simp)
      have hy : y ∈ l := h'.subset (by simp)
      have hax : a ≠ x := fun e => hn.1 (e ▸ hx)
      have hay : a ≠ y := fun e => hn.1 (e ▸ hy)
      rw [List.indexOf_cons_ne _ hax, List.indexOf_cons_ne _ hay]
      exact Nat.succ_lt_succ (ih hn.2 h')
    | cons₂ _ h' =>
      have hy : y ∈ l := List.singleton_sublist.mp h'
      have hxy : x ≠ y := fun e => hn.1 (e ▸ hy)
      rw [List.indexOf_cons_self, List.indexOf_cons_ne _ hxy]
      exact Nat.succ_pos _

theorem canonicalPos_lt_of_tie {t : List CardInfoRow} {i j : Nat} (hij : i < j)
    (hj : j < t.length) (hc : textLe (t[i]).card_id (t[j]).card_id = true) :
    canonicalPos t i < canonicalPos t j := by
  have hi : i < t.length := by omega
  have h1 := pair_sublist_of_lt t.enum hij (by simpa [List.enum_length] using hj)
  simp only [List.getElem_enum] at h1
  have h2 : [(i, t[i]), (j, t[j])].Sublist (windowOrder t) :=
    List.sublist_insertionSort (List.pairwise_pair.mpr hc) h1
  have h3 := h2.map Prod.fst
  exact indexOf_lt_of_pair_sublist (windowOrder_tags_nodup t) h3

theorem canonicalPos_injective {t : List CardInfoRow} {i j : Nat} (hi : i < t.length)
    (hj : j < t.length) (h : canonicalPos t i = canonicalPos t j) : i = j := by
  have h1 := windowOrder_at_canonicalPos hi
  have h2 := windowOrder_at_canonicalPos hj
  rw [h, h2] at h1
  injection h1 with h1
  exact (congrArg Prod.fst h1).symm

theorem canonicalPos_lt_of_textLt {t : List CardInfoRow} {i j : Nat} (hi : i < t.length)
    (hj : j < t.length) (hc : textLt (t[i]).card_id (t[j]).card_id = true) :
    canonicalPos t i < canonicalPos t j := by
  have hne : i ≠ j := by
    rintro rfl
    simp [textLt, textLe_refl] at hc
  rcases Nat.lt_trichotomy (canonicalPos t i) (canonicalPos t j) with h | h | h
  · exact h
  · exact absurd (canonicalPos_injective hi hj h) hne
  · exfalso
    have hs := List.pairwise_iff_getElem.mp (windowOrder_sorted t) _ _
      (canonicalPos_lt hj) (canonicalPos_lt hi) h
    have h1 := windowOrder_at_canonicalPos hi
    have h2 := windowOrder_at_canonicalPos hj
    rw [List.getElem?_eq_getElem (canonicalPos_lt hi)] at h1
    rw [List.getElem?_eq_getElem (canonicalPos_lt hj)] at h2
    injection h1 with h1
    injection h2 with h2
    rw [h1, h2] at hs
    simp [textLt, hs] at hc

/-! ## Helper lemmas: `new_cards_info` and the lookup of a `cid` -/

theorem selectNewCardsInfo_length (t : List CardInfoRow) :
    (selectNewCardsInfo t).length = t.length := by
  simp [selectNewCardsInfo, List.enum_length, windowOrder_length]

theorem selectNewCardsInfo_at (t : List CardInfoRow) (k : Nat) :
    (selectNewCardsInfo t)[k]? = ((windowOrder t)[k]?).map fun p => newCardsInfoRow (k + 1) p.2 := by
  simp only [selectNewCardsInfo, List.getElem?_map, List.getElem?_enum, Option.map_map]
  rfl

theorem selectNewCardsInfo_cids (t : List CardInfoRow) :
    (selectNewCardsInfo t).map (fun r => r.cid) = List.range' 1 t.length := by
  apply List.ext_getElem?
  intro k
  rw [List.getElem?_map, selectNewCardsInfo_at]
  by_cases hk : k < t.length
  · have hk2 : k < (windowOrder t).length := by rw [windowOrder_length]; exact hk
    rw [List.getElem?_range' 1 1 hk]
    simp [List.getElem?_eq_getElem hk2, newCardsInfoRow, Nat.add_comm]
  · have hk2 : (windowOrder t).length ≤ k := by rw [windowOrder_length]; omega
    rw [List.getElem?_eq_none hk2, List.getElem?_eq_none (by simpa using hk)]
    rfl

theorem canonicalOf_eq {t : List CardInfoRow} {i : Nat} (hi : i < t.length) :
    canonicalOf t i = some (newCardsInfoRow (canonicalPos t i + 1) t[i]) := by
  simp [canonicalOf, selectNewCardsInfo_at, windowOrder_at_canonicalPos hi]

theorem selectCid_eq {t : List CardInfoRow} {c : String} {k : Nat} {p : Nat × CardInfoRow}
    (hk : (windowOrder t)[k]? = some p) (hp : p.2.card_id = c)
    (hfirst : ∀ k2 q, k2 < k → (windowOrder t)[k2]? = some q → q.2.card_id ≠ c) :
    selectCid (selectNewCardsInfo t) c = some (k + 1) := by
  have hlt : k < (selectNewCardsInfo t).length := by
    rw [selectNewCardsInfo_length, ← windowOrder_length]
    exact (List.getElem?_eq_some_iff.mp hk).1
  have hrow : (selectNewCardsInfo t)[k]? = some (newCardsInfoRow (k + 1) p.2) := by
    rw [selectNewCardsInfo_at, hk]; rfl
  have hget : (selectNewCardsInfo t)[k] = newCardsInfoRow (k + 1) p.2 := by
    rw [List.getElem?_eq_getElem hlt] at hrow
    exact Option.some.inj hrow
  have hfind : (selectNewCardsInfo t).find? (fun r => r.card_id == c)
      = some (newCardsInfoRow (k + 1) p.2) := by
    rw [List.find?_eq_some]
    refine ⟨by simp [newCardsInfoRow, hp], (selectNewCardsInfo t).take k,
      (selectNewCardsInfo t).drop (k + 1), ?_, ?_⟩
    · rw [← hget, List.getElem_cons_drop, List.take_append_drop]
    · intro a ha
      obtain ⟨k2, hk2, hak⟩ := List.getElem_of_mem ha
      have hk2lt : k2 < k := by
        have := hk2
        simp only [List.length_take] at this
        omega
      have hk2len : k2 < (windowOrder t).length := by
        rw [windowOrder_length, ← selectNewCardsInfo_length]; omega
      have h1 : (selectNewCardsInfo t)[k2]? = some a := by
        rw [← hak, List.getElem_take]
        exact List.getElem?_eq_getElem (by omega)
      rw [selectNewCardsInfo_at, List.getElem?_eq_getElem hk2len] at h1
      simp only [Option.map_some', Option.some.injEq] at h1
      have h2 := hfirst k2 _ hk2lt (List.getElem?_eq_getElem hk2len)
      rw [← h1]
      simpa [newCardsInfoRow] using h2
  simp [selectCid, hfind, newCardsInfoRow]

/-- The lookup for the `card_id` of the raw row at position `i` finds the
canonical row of the first raw row `j` with that `card_id`. -/
theorem selectCid_of_first {t : List CardInfoRow} {i j : Nat} (hi : i < t.length)
    (hj : j < t.length) (hsame : (t[j]).card_id = (t[i]).card_id)
    (hfirst : ∀ k (hk : k < t.length), k < j → (t[k]).card_id ≠ (t[i]).card_id) :
    selectCid (selectNewCardsInfo t) (t[i]).card_id = some (canonicalPos t j + 1) := by
  apply selectCid_eq (windowOrder_at_canonicalPos hj) hsame
  intro k2 q hk2 hq hqc
  obtain ⟨hpos, hq2⟩ := canonicalPos_of_at hq
  obtain ⟨hq1lt, hq3⟩ := List.getElem?_eq_some_iff.mp hq2
  have hcard : (t[q.1]).card_id = (t[i]).card_id := by rw [hq3]; exact hqc
  rcases Nat.lt_trichotomy q.1 j with h | h | h
  · exact hfirst q.1 hq1lt h hcard
  · have : canonicalPos t j = k2 := by rw [← hpos, h]
    omega
  · have hle : textLe (t[j]).card_id (t[q.1]).card_id = true := by
      rw [hsame, hcard]; exact textLe_refl _
    have := canonicalPos_lt_of_tie h hq1lt hle
    omega

theorem variantOf_eq {t : List CardInfoRow} (prior : List ImageInfoRow) {i : Nat}
    (hi : i < t.length) :
    variantOf t prior i = some (imageInfoRow (selectNewCardsInfo t) t[i]) := by
  simp [variantOf, normalizeDatabase, List.getElem?_append_right, List.getElem?_eq_getElem hi]

theorem exists_first_with_card_id (t : List CardInfoRow) {i : Nat} (hi : i < t.length) :
    ∃ j, ∃ hj : j < t.length, j ≤ i ∧ (t[j]).card_id = (t[i]).card_id ∧
      ∀ k (hk : k < t.length), k < j → (t[k]).card_id ≠ (t[i]).card_id := by
  classical
  have hex : ∃ j, ∃ hj : j < t.length, (t[j]).card_id = (t[i]).card_id := ⟨i, hi, rfl⟩
  refine ⟨Nat.find hex, (Nat.find_spec hex).1, Nat.find_min' hex ⟨hi, rfl⟩,
    (Nat.find_spec hex).2, ?_⟩
  intro k hk hlt hc
  exact Nat.find_min hex hlt ⟨hk, hc⟩

/-! ## Claims on `normalizeDatabase` -/

/-- C1, as amended. The variant built from the raw row at position `i` carries
the `cid` of the canonical card built from the first raw row `j` that has the
same `card_id` as row `i`; it carries the `cid` of the canonical card of row
`i` itself exactly when no earlier raw row has that `card_id` (`j = i`). -/
theorem variant_cid_of_first_print (t : List CardInfoRow) (prior : List ImageInfoRow) (i : Nat)
    (r : CardInfoRow) (hr : t[i]? = some r) :
    ∃ j c, j ≤ i ∧ (t[j]?).map (fun x => x.card_id) = some r.card_id ∧
      (∀ k, k < j → (t[k]?).map (fun x => x.card_id) ≠ some r.card_id) ∧
      canonicalCid t j = some c ∧ variantCid t prior i = some c ∧
      (variantCid t prior i = canonicalCid t i ↔ j = i) := by
  obtain ⟨hi, hri⟩ := List.getElem?_eq_some_iff.mp hr
  obtain ⟨j, hj, hji, hsame, hfirst⟩ := exists_first_with_card_id t hi
  have hv : variantCid t prior i = some (canonicalPos t j + 1) := by
    simp only [variantCid, variantOf_eq prior hi, Option.some_bind, imageInfoRow]
    exact selectCid_of_first hi hj hsame hfirst
  refine ⟨j, canonicalPos t j + 1, hji, ?_, ?_, ?_, hv, ?_⟩
  · rw [List.getElem?_eq_getElem hj, ← hri]; exact congrArg some hsame
  · intro k hk hc
    have hklt : k < t.length := by omega
    rw [List.getElem?_eq_getElem hklt, ← hri] at hc
    exact hfirst k hklt hk (Option.some.inj hc)
  · simp [canonicalCid, canonicalOf_eq hj, newCardsInfoRow]
  · rw [hv]
    simp only [canonicalCid, canonicalOf_eq hi, newCardsInfoRow, Option.map_some',
      Option.some.injEq, Nat.add_right_cancel_iff]
    constructor
    · intro h; exact canonicalPos_injective hj hi h
    · intro h; rw [h]

/-- Witness for C1 as amended: the alternate-art print of `OP05-002`. -/
theorem variant_cid_of_first_print_witness :
    twoPrints[1]? = some (sampleRow 2 "OP05-002" "/images/cardlist/card/OP05-002_p1.png") ∧
    ∃ j c, j ≤ 1 ∧ (twoPrints[j]?).map (fun x => x.card_id) = some "OP05-002" ∧
      (∀ k, k < j → (twoPrints[k]?).map (fun x => x.card_id) ≠ some "OP05-002") ∧
      canonicalCid twoPrints j = some c ∧ variantCid twoPrints [] 1 = some c ∧
      (variantCid twoPrints [] 1 = canonicalCid twoPrints 1 ↔ j = 1) :=
  ⟨rfl, variant_cid_of_first_print twoPrints [] 1 _ rfl⟩

/-- C1, as stated, fails: the variant of the second print of `OP05-002` stores
`cid` 1 while the canonical card built from that same raw row has `cid` 2, and
the two prints, which share the `card_id`, get the same variant `cid`. -/
theorem variant_cid_not_by_row_identity :
    variantCid twoPrints [] 1 = some 1 ∧ canonicalCid twoPrints 1 = some 2 ∧
    variantCid twoPrints [] 1 ≠ canonicalCid twoPrints 1 ∧
    variantCid twoPrints [] 0 = variantCid twoPrints [] 1 := by
  decide

/-- C2. On a store whose `cards_image_info` is empty, the pass yields as many
canonical rows and as many variant rows as there are raw rows; on any store it
adds one variant row per raw row to `cards_image_info`. -/
theorem normalizeDatabase_row_counts (t : List CardInfoRow) :
    (normalizeDatabase t []).1.length = t.length ∧
    (normalizeDatabase t []).2.length = t.length ∧
    ∀ prior : List ImageInfoRow, (normalizeDatabase t prior).1.length = t.length ∧
      (normalizeDatabase t prior).2.length = prior.length + t.length := by
  simp [normalizeDatabase, selectNewCardsInfo_length]

/-- C4. The `cid` column of the new `cards_info` is `1, 2, ..., n`; the
canonical cards built from two raw rows `a` (position `i`) and `b` (position
`j`) are rows of that table carrying the columns of `a` and `b`, and their
`cid`s are ordered by `card_id` first (in the order `<` of strings, which is
the `BINARY` collation) and by position in the raw table among rows with equal
`card_id`. -/
theorem normalizeDatabase_cid_order (t : List CardInfoRow) (prior : List ImageInfoRow)
    (i j : Nat) (a b : CardInfoRow) (ha : t[i]? = some a) (hb : t[j]? = some b) :
    (normalizeDatabase t prior).1.map (fun r => r.cid) = List.range' 1 t.length ∧
    ∃ ca cb, canonicalOf t i = some ca ∧ canonicalOf t j = some cb ∧
      ca ∈ (normalizeDatabase t prior).1 ∧ cb ∈ (normalizeDatabase t prior).1 ∧
      ca = newCardsInfoRow ca.cid a ∧ cb = newCardsInfoRow cb.cid b ∧
      (a.card_id < b.card_id → ca.cid < cb.cid) ∧
      (a.card_id = b.card_id → i < j → ca.cid < cb.cid) := by
  obtain ⟨hi, hai⟩ := List.getElem?_eq_some_iff.mp ha
  obtain ⟨hj, hbj⟩ := List.getElem?_eq_some_iff.mp hb
  refine ⟨selectNewCardsInfo_cids t, _, _, canonicalOf_eq hi, canonicalOf_eq hj, ?_, ?_, ?_, ?_,
    ?_, ?_⟩
  · have h := canonicalOf_eq hi
    exact List.getElem?_mem h
  · have h := canonicalOf_eq hj
    exact List.getElem?_mem h
  · rw [hai]; rfl
  · rw [hbj]; rfl
  · intro hlt
    have := canonicalPos_lt_of_textLt hi hj
      (by rw [hai, hbj]; exact (textLt_iff_lt _ _).mpr hlt)
    simpa [newCardsInfoRow] using this
  · intro heq hij
    have := canonicalPos_lt_of_tie hij hj (by rw [hai, hbj, heq]; exact textLe_refl _)
    simpa [newCardsInfoRow] using this

/-- Witness for C4: the two prints of `OP05-002`, stored around `OP01-001`,
get the `cid`s 2 and 3. -/
theorem normalizeDatabase_cid_order_witness :
    (normalizeDatabase threeRows []).1.map (fun r => (r.cid, r.card_id))
      = [(1, "OP01-001"), (2, "OP05-002"), (3, "OP05-002")] ∧
    (normalizeDatabase threeRows []).1.map (fun r => r.cid) = List.range' 1 threeRows.length ∧
    ∃ ca cb, canonicalOf threeRows 0 = some ca ∧ canonicalOf threeRows 2 = some cb ∧
      ca ∈ (normalizeDatabase threeRows []).1 ∧ cb ∈ (normalizeDatabase threeRows []).1 ∧
      ca = newCardsInfoRow ca.cid (sampleRow 1 "OP05-002" "/images/cardlist/card/OP05-002.png") ∧
      cb = newCardsInfoRow cb.cid
        (sampleRow 3 "OP05-002" "/images/cardlist/card/OP05-002_p1.png") ∧
      ("OP05-002" < "OP05-002" → ca.cid < cb.cid) ∧
      ("OP05-002" = "OP05-002" → 0 < 2 → ca.cid < cb.cid) :=
  ⟨by decide, normalizeDatabase_cid_order threeRows [] 0 2 _ _ rfl rfl⟩

/-! ## Claims on the alternate-art flag -/

theorem takeWhile_digits_append (ds rest : List Char) (hds : ∀ c ∈ ds, isDigit c = true)
    (hrest : ∀ c, rest.head? = some c → isDigit c = false) :
    (ds ++ rest).takeWhile isDigit = ds ∧ (ds ++ rest).dropWhile isDigit = rest := by
  induction ds with
  | nil =>
    cases rest with
    | nil => simp
    | cons c cs =>
      have := hrest c rfl
      simp [List.takeWhile, List.dropWhile, this]
  | cons d ds ih =>
    have hd : isDigit d = true := hds d (by simp)
    have := ih (fun c hc => hds c (by simp [hc]))
    simp [List.takeWhile, List.dropWhile, hd, this]

theorem matchHere_iff (l : List Char) :
    matchHere l = true ↔
      ∃ ds : List Char, ds ≠ [] ∧ (∀ c ∈ ds, isDigit c = true) ∧
        l = ['_', 'p'] ++ ds ++ ['.', 'p', 'n', 'g'] := by
  constructor
  · intro h
    match l, h with
    | a :: b :: rest, h =>
      simp only [matchHere, Bool.and_eq_true, beq_iff_eq, Bool.not_eq_true',
        List.isEmpty_eq_false] at h
      obtain ⟨⟨⟨ha, hb⟩, hne⟩, hdrop⟩ := h
      refine ⟨rest.takeWhile isDigit, ?_, ?_, ?_⟩
      · intro h0; simp [h0] at hne
      · intro c hc; exact List.mem_takeWhile_imp hc
      · have := List.takeWhile_append_dropWhile isDigit rest
        rw [hdrop] at this
        rw [ha, hb]
        simp only [List.cons_append, List.nil_append, this]
  · rintro ⟨ds, hne, hds, rfl⟩
    have h := takeWhile_digits_append ds ['.', 'p', 'n', 'g'] hds (by
      intro c hc
      simp only [List.head?_cons, Option.some.injEq] at hc
      subst hc
      decide)
    simp only [List.cons_append, List.nil_append, matchHere, h.1, h.2, beq_self_eq_true,
      Bool.true_and, Bool.and_true, Bool.not_eq_true', List.isEmpty_eq_false]
    exact hne

/-- C3, as amended. The flag is 1 exactly when the whole image reference ends
with `_p`, one or more ASCII digits and `.png`; otherwise it is 0. -/
theorem isDiff_eq_one_iff (img_src : String) :
    (isDiff img_src = 1 ↔
      ∃ stem ds : List Char, ds ≠ [] ∧ (∀ c ∈ ds, isDigit c = true) ∧
        img_src.data = stem ++ ['_', 'p'] ++ ds ++ ['.', 'p', 'n', 'g']) ∧
    (isDiff img_src = 1 ∨ isDiff img_src = 0) := by
  have hflag : isDiff img_src = 1 ↔ regexTest img_src = true := by
    unfold isDiff; split <;> simp_all
  refine ⟨?_, ?_⟩
  · rw [hflag]
    simp only [regexTest, List.any_eq_true, List.mem_tails]
    constructor
    · rintro ⟨l, ⟨pre, hpre⟩, hl⟩
      obtain ⟨ds, hne, hds, rfl⟩ := (matchHere_iff l).mp hl
      exact ⟨pre, ds, hne, hds, by rw [← hpre]; simp⟩
    · rintro ⟨stem, ds, hne, hds, h⟩
      refine ⟨['_', 'p'] ++ ds ++ ['.', 'p', 'n', 'g'], ⟨stem, by rw [h]; simp⟩, ?_⟩
      exact (matchHere_iff _).mpr ⟨ds, hne, hds, rfl⟩
  · unfold isDiff; split <;> simp

/-- C3, as stated, fails: `OP05-002_p1.jpg` has the form
`<stem>_p<digits>.<ext>` and so has `OP05-002_p1.png?v=2` once its query string
is ignored, yet the flag computed for either is 0. -/
theorem isDiff_png_only :
    hasAlternateArtName "/images/cardlist/card/OP05-002_p1.jpg" ∧
    isDiff "/images/cardlist/card/OP05-002_p1.jpg" = 0 ∧
    hasAlternateArtName "/images/cardlist/card/OP05-002_p1.png?v=2" ∧
    isDiff "/images/cardlist/card/OP05-002_p1.png?v=2" = 0 ∧
    isDiff "/images/cardlist/card/OP05-002_p1.png" = 1 ∧
    isDiff "/images/cardlist/card/OP05-002.png" = 0 := by
  refine ⟨⟨"OP05-002".data, ['1'], ['j', 'p', 'g'], by decide, by decide, by decide, by decide⟩,
    by decide,
    ⟨"OP05-002".data, ['1'], ['p', 'n', 'g'], by decide, by decide, by decide, by decide⟩,
    by decide, by decide, by decide⟩

/-! ## Helper lemmas: trimming and `parseInt` -/

theorem trimChars_initial (s : List Char) : trimChars s <+: s.dropWhile isWhiteSpace := by
  unfold trimChars
  rw [← List.reverse_suffix, List.reverse_reverse]
  exact List.dropWhile_suffix _

theorem trimChars_head_not_whiteSpace {s : List Char} {c : Char} {rest : List Char}
    (h : trimChars s = c :: rest) : isWhiteSpace c = false := by
  obtain ⟨u, hu⟩ := trimChars_initial s
  rw [h] at hu
  have hne : s.dropWhile isWhiteSpace ≠ [] := by rw [← hu]; simp
  have h1 := List.head_dropWhile_not isWhiteSpace s hne
  have h2 : (s.dropWhile isWhiteSpace).head hne = c := by
    simp only [← hu, List.cons_append, List.head_cons]
  rw [h2] at h1
  simpa using h1

theorem dropWhile_trimChars (s : List Char) :
    (trimChars s).dropWhile isWhiteSpace = trimChars s := by
  cases h : trimChars s with
  | nil => rfl
  | cons c rest =>
    have := trimChars_head_not_whiteSpace h
    simp [List.dropWhile, this]

theorem scalarText_none (d : String) : scalarText none d = d := rfl

theorem scalarText_some_empty (s d : String) (h : trimChars s.data = []) :
    scalarText (some s) d = d := by
  simp [scalarText, trim, h]

theorem scalarText_some (s d : String) (h : trimChars s.data ≠ []) :
    scalarText (some s) d = trim s := by
  simp [scalarText, trim, h]

theorem numericField_none : numericField none = 0 := by decide

theorem numericField_some_empty (s : String) (h : trimChars s.data = []) :
    numericField (some s) = 0 := by
  rw [numericField, scalarText_some_empty s "0" h]; decide

theorem numericField_some (s : String) (h : trimChars s.data ≠ []) :
    numericField (some s) = parseIntOrZero (trim s) := by
  rw [numericField, scalarText_some s "0" h]

theorem isDigit_head_false_iff (rest : List Char) :
    (∀ d ∈ rest.head?, isDigit d = false) ↔ ∀ c, rest.head? = some c → isDigit c = false := by
  simp [Option.mem_def]

/-- The digits read by `parseInt` from a trimmed text `sign ++ ds ++ rest`. -/
theorem parseInt_trim_unsigned (s : String) (ds rest : List Char)
    (h : trimChars s.data = ds ++ rest) (hne : ds ≠ []) (hds : ∀ c ∈ ds, isDigit c = true)
    (hrest : ∀ d ∈ rest.head?, isDigit d = false) :
    parseInt (trim s) = some (digitsValue ds : Int) := by
  have htw := takeWhile_digits_append ds rest hds ((isDigit_head_false_iff rest).mp hrest)
  cases ds with
  | nil => exact absurd rfl hne
  | cons d ds =>
    have hd : isDigit d = true := hds d (by simp)
    have h1 : d ≠ '-' := by rintro rfl; exact absurd hd (by decide)
    have h2 : d ≠ '+' := by rintro rfl; exact absurd hd (by decide)
    have hdrop : (trim s).data.dropWhile isWhiteSpace = d :: ds ++ rest := by
      show (trimChars s.data).dropWhile isWhiteSpace = _
      rw [dropWhile_trimChars, h]
    simp only [parseInt, hdrop, List.cons_append, h1, h2, if_false]
    rw [← List.cons_append, htw.1]
    simp

theorem parseInt_trim_signed (s : String) (c : Char) (ds rest : List Char)
    (hc : c = '-' ∨ c = '+')
    (h : trimChars s.data = c :: (ds ++ rest)) (hds : ∀ c ∈ ds, isDigit c = true)
    (hrest : ∀ d ∈ rest.head?, isDigit d = false) :
    parseInt (trim s) =
      if ds = [] then none
      else some ((if c = '-' then -1 else 1) * (digitsValue ds : Int)) := by
  have htw := takeWhile_digits_append ds rest hds ((isDigit_head_false_iff rest).mp hrest)
  have hdrop : (trim s).data.dropWhile isWhiteSpace = c :: (ds ++ rest) := by
    show (trimChars s.data).dropWhile isWhiteSpace = _
    rw [dropWhile_trimChars, h]
  rcases hc with rfl | rfl
  · simp only [parseInt, hdrop, if_true, htw.1]
    cases ds <;> simp
  · have : ('+' : Char) ≠ '-' := by decide
    simp only [parseInt, hdrop, this, if_true, if_false, htw.1]
    cases ds <;> simp

theorem parseInt_trim_other (s : String) (c : Char) (rest : List Char)
    (h : trimChars s.data = c :: rest) (hc : isDigit c = false) (h1 : c ≠ '-') (h2 : c ≠ '+') :
    parseInt (trim s) = none := by
  have hdrop : (trim s).data.dropWhile isWhiteSpace = c :: rest := by
    show (trimChars s.data).dropWhile isWhiteSpace = _
    rw [dropWhile_trimChars, h]
  simp [parseInt, hdrop, h1, h2, List.takeWhile, hc]

theorem parseInt_neg {v : String} {n : Int} (h : parseInt v = some n) (hn : n < 0) :
    ∃ rest, v.data.dropWhile isWhiteSpace = '-' :: rest := by
  unfold parseInt at h
  cases hS : v.data.dropWhile isWhiteSpace with
  | nil => simp [hS] at h
  | cons c rest =>
    by_cases hc : c = '-'
    · exact ⟨rest, by rw [hc]⟩
    · exfalso
      rw [hS] at h
      have hnn : ∀ l : List Char, (0 : Int) ≤ 1 * (digitsValue l : Int) := by
        intro l
        have : (0 : Int) ≤ (digitsValue l : Int) := Int.ofNat_nonneg _
        omega
      by_cases hp : c = '+'
      · have hpm : ¬ ('+' : Char) = '-' := by decide
        subst hp
        simp only [hpm, if_true, if_false] at h
        by_cases hz : (List.takeWhile isDigit rest).isEmpty = true
        · rw [if_pos hz] at h; cases h
        · rw [if_neg hz] at h
          injection h with h
          have := hnn (List.takeWhile isDigit rest)
          omega
      · simp only [hc, hp, if_false] at h
        by_cases hz : (List.takeWhile isDigit (c :: rest)).isEmpty = true
        · rw [if_pos hz] at h; cases h
        · rw [if_neg hz] at h
          injection h with h
          have := hnn (List.takeWhile isDigit (c :: rest))
          omega

theorem numericField_neg {x : Option String} (h : numericField x < 0) :
    ∃ s rest, x = some s ∧ trimChars s.data = '-' :: rest := by
  cases x with
  | none => rw [numericField_none] at h; omega
  | some s =>
    by_cases he : trimChars s.data = []
    · rw [numericField_some_empty s he] at h; omega
    · rw [numericField_some s he] at h
      unfold parseIntOrZero at h
      cases hp : parseInt (trim s) with
      | none => rw [hp] at h; simp at h
      | some n =>
        rw [hp] at h
        obtain ⟨rest, hrest⟩ := parseInt_neg hp h
        refine ⟨s, rest, rfl, ?_⟩
        have : (trimChars s.data).dropWhile isWhiteSpace = '-' :: rest := hrest
        rwa [dropWhile_trimChars] at this

/-! ## Helper lemmas: the record of a card block -/

theorem cardOf_of_complete (mk : Markup) (seriesId : String) (m : ModalCol) (h : m.complete) :
    ∃ rec, cardOf mk seriesId m = some rec := by
  obtain ⟨hb, h1, h2, h3, hf⟩ := h
  obtain ⟨b, hb⟩ := Option.isSome_iff_exists.mp hb
  obtain ⟨i1, h1⟩ := Option.isSome_iff_exists.mp h1
  obtain ⟨i2, h2⟩ := Option.isSome_iff_exists.mp h2
  obtain ⟨i3, h3⟩ := Option.isSome_iff_exists.mp h3
  cases hfc : m.frontCol with
  | none => simp [cardOf, hfc, hb, h1, h2, h3]
  | some f =>
    obtain ⟨src, hsrc⟩ := Option.isSome_iff_exists.mp (hf f hfc)
    simp [cardOf, hfc, hb, h1, h2, h3, hsrc]

theorem cardOf_fields {mk : Markup} {seriesId : String} {m : ModalCol} {b : BackCol}
    {rec : CardRecord} (hb : m.backCol = some b) (h : cardOf mk seriesId m = some rec) :
    (∀ f : NumericField, f.value rec = numericField (f.text b)) ∧
    (∀ f : TextField, f.value rec = scalarText (f.text b) "-") := by
  obtain ⟨fc, bc, i1, i2, i3⟩ := m
  simp only at hb
  subst hb
  have fin : ∀ a1 a2 a3 a4 a5 a6 a7 a8, rec =
      { card_id := a1, card_name := a2, card_species := a3, card_type := a4, img_src := a5,
        cost := parseIntOrZero (scalarText b.cost "0"),
        power := parseIntOrZero (scalarText b.power "0"),
        counter := parseIntOrZero (scalarText b.counter "0"), color := scalarText b.color "-",
        feature := scalarText b.feature "-", effect := a6, get_info := a7, series_id := a8 } →
      (∀ f : NumericField, f.value rec = numericField (f.text b)) ∧
      (∀ f : TextField, f.value rec = scalarText (f.text b) "-") := by
    intro a1 a2 a3 a4 a5 a6 a7 a8 hrec
    subst hrec
    constructor
    · intro f; cases f <;> rfl
    · intro f; cases f <;> rfl
  cases i1 with
  | none => cases fc with
    | none => simp [cardOf] at h
    | some f => cases hs : f.data_src <;> simp [cardOf, hs] at h
  | some v1 =>
    cases i2 with
    | none => cases fc with
      | none => simp [cardOf] at h
      | some f => cases hs : f.data_src <;> simp [cardOf, hs] at h
    | some v2 =>
      cases i3 with
      | none => cases fc with
        | none => simp [cardOf] at h
        | some f => cases hs : f.data_src <;> simp [cardOf, hs] at h
      | some v3 =>
        cases fc with
        | none =>
          simp only [cardOf, Option.bind_eq_bind, Option.pure_def, Option.some_bind,
            Option.map_some', Option.some.injEq] at h
          exact fin _ _ _ _ _ _ _ _ h.symm
        | some f =>
          cases hs : f.data_src with
          | none => simp [cardOf, hs] at h
          | some src =>
            simp only [cardOf, hs, Option.bind_eq_bind, Option.pure_def, Option.some_bind,
              Option.map_some', Option.some.injEq] at h
            exact fin _ _ _ _ _ _ _ _ h.symm

/-! ## Claims on the record of a card block -/

/-- C5, as amended. For a card block that yields a record, a numeric field
(cost, power, counter) of the record is 0 when its text is missing, trims to
the empty string, or does not start, once trimmed, with a decimal digit that
one sign may precede; when the trimmed text starts with a run of at most 15
digits, optionally signed, the field is the value of that run, with its sign,
whatever follows the run. So an unsigned or signed base-10 integer literal
gives that integer, and a text such as `2abc` gives 2. -/
theorem numeric_field_of_text (mk : Markup) (seriesId : String) (m : ModalCol) (b : BackCol)
    (hm : m.complete) (hb : m.backCol = some b) :
    ∃ rec, cardOf mk seriesId m = some rec ∧ ∀ f : NumericField,
      (f.text b = none → f.value rec = 0) ∧
      ∀ s, f.text b = some s →
        (trimChars s.data = [] → f.value rec = 0) ∧
        (∀ c rest, trimChars s.data = c :: rest → isDigit c = false →
          ((c ≠ '+' ∧ c ≠ '-') ∨ ∀ d ∈ rest.head?, isDigit d = false) → f.value rec = 0) ∧
        (∀ ds rest, trimChars s.data = ds ++ rest → ds ≠ [] → ds.length ≤ 15 →
          (∀ c ∈ ds, isDigit c = true) → (∀ d ∈ rest.head?, isDigit d = false) →
          f.value rec = (digitsValue ds : Int)) ∧
        (∀ ds rest, trimChars s.data = '+' :: (ds ++ rest) → ds ≠ [] → ds.length ≤ 15 →
          (∀ c ∈ ds, isDigit c = true) → (∀ d ∈ rest.head?, isDigit d = false) →
          f.value rec = (digitsValue ds : Int)) ∧
        (∀ ds rest, trimChars s.data = '-' :: (ds ++ rest) → ds ≠ [] → ds.length ≤ 15 →
          (∀ c ∈ ds, isDigit c = true) → (∀ d ∈ rest.head?, isDigit d = false) →
          f.value rec = -(digitsValue ds : Int)) := by
  obtain ⟨rec, hrec⟩ := cardOf_of_complete mk seriesId m hm
  refine ⟨rec, hrec, fun f => ?_⟩
  rw [(cardOf_fields hb hrec).1 f]
  refine ⟨fun h => by rw [h]; exact numericField_none, fun s hs => ?_⟩
  rw [hs]
  refine ⟨numericField_some_empty s, ?_, ?_, ?_, ?_⟩
  · intro c rest h hc hsign
    rw [numericField_some s (by rw [h]; simp), parseIntOrZero]
    by_cases hpm : c = '-' ∨ c = '+'
    · have hrest : ∀ d ∈ rest.head?, isDigit d = false := by
        rcases hsign with h1 | h1
        · rcases hpm with h2 | h2
          · exact absurd h2 h1.2
          · exact absurd h2 h1.1
        · exact h1
      have := parseInt_trim_signed s c [] rest hpm (by simpa using h) (by simp) hrest
      rw [this]; rfl
    · have h1 : c ≠ '-' := fun e => hpm (Or.inl e)
      have h2 : c ≠ '+' := fun e => hpm (Or.inr e)
      rw [parseInt_trim_other s c rest h hc h1 h2]
  · intro ds rest h hne _ hds hrest
    have hne2 : trimChars s.data ≠ [] := by
      rw [h]; cases ds with
      | nil => exact absurd rfl hne
      | cons d ds => simp
    rw [numericField_some s hne2, parseIntOrZero, parseInt_trim_unsigned s ds rest h hne hds hrest]
  · intro ds rest h hne _ hds hrest
    rw [numericField_some s (by rw [h]; simp), parseIntOrZero,
      parseInt_trim_signed s '+' ds rest (Or.inr rfl) h hds hrest]
    have : ('+' : Char) ≠ '-' := by decide
    simp [hne, this]
  · intro ds rest h hne _ hds hrest
    rw [numericField_some s (by rw [h]; simp), parseIntOrZero,
      parseInt_trim_signed s '-' ds rest (Or.inl rfl) h hds hrest]
    simp [hne]

/-- Witness for C5 as amended: the block with cost text `2`, power text
`5000` and no counter. -/
theorem numeric_field_of_text_witness :
    (sampleBlock (samplePanel (some "2") (some "5000") none)).complete ∧
    (cardOf noMarkup "569105" (sampleBlock (samplePanel (some "2") (some "5000") none))).map
      (fun r => (r.cost, r.power, r.counter)) = some (2, 5000, 0) ∧
    ∃ rec, cardOf noMarkup "569105" (sampleBlock (samplePanel (some "2") (some "5000") none))
        = some rec ∧ ∀ f : NumericField,
      (f.text (samplePanel (some "2") (some "5000") none) = none → f.value rec = 0) ∧
      ∀ s, f.text (samplePanel (some "2") (some "5000") none) = some s →
        (trimChars s.data = [] → f.value rec = 0) ∧
        (∀ c rest, trimChars s.data = c :: rest → isDigit c = false →
          ((c ≠ '+' ∧ c ≠ '-') ∨ ∀ d ∈ rest.head?, isDigit d = false) → f.value rec = 0) ∧
        (∀ ds rest, trimChars s.data = ds ++ rest → ds ≠ [] → ds.length ≤ 15 →
          (∀ c ∈ ds, isDigit c = true) → (∀ d ∈ rest.head?, isDigit d = false) →
          f.value rec = (digitsValue ds : Int)) ∧
        (∀ ds rest, trimChars s.data = '+' :: (ds ++ rest) → ds ≠ [] → ds.length ≤ 15 →
          (∀ c ∈ ds, isDigit c = true) → (∀ d ∈ rest.head?, isDigit d = false) →
          f.value rec = (digitsValue ds : Int)) ∧
        (∀ ds rest, trimChars s.data = '-' :: (ds ++ rest) → ds ≠ [] → ds.length ≤ 15 →
          (∀ c ∈ ds, isDigit c = true) → (∀ d ∈ rest.head?, isDigit d = false) →
          f.value rec = -(digitsValue ds : Int)) :=
  ⟨by simp [ModalCol.complete, sampleBlock], by decide,
    numeric_field_of_text noMarkup "569105" _ _ (by simp [ModalCol.complete, sampleBlock]) rfl⟩

/-- C5, as stated, fails: the cost text `2abc` is not a number, yet the record
has cost 2. -/
theorem numeric_field_reads_prefix :
    isNumber "2abc" = false ∧
    (cardOf noMarkup "569105" (sampleBlock (samplePanel (some "2abc") (some "5000") none))).map
      (fun r => r.cost) = some 2 := by
  decide

/-- C6, as amended. For a card block that yields a record, a numeric field of
the record is negative only when its trimmed text starts with a minus sign; in
every other case it is at least 0. -/
theorem numeric_field_nonneg_unless_minus (mk : Markup) (seriesId : String) (m : ModalCol)
    (b : BackCol) (hm : m.complete) (hb : m.backCol = some b) :
    ∃ rec, cardOf mk seriesId m = some rec ∧ ∀ f : NumericField,
      0 ≤ f.value rec ∨ ∃ s rest, f.text b = some s ∧ trimChars s.data = '-' :: rest := by
  obtain ⟨rec, hrec⟩ := cardOf_of_complete mk seriesId m hm
  refine ⟨rec, hrec, fun f => ?_⟩
  rw [(cardOf_fields hb hrec).1 f]
  by_cases h : 0 ≤ numericField (f.text b)
  · exact Or.inl h
  · exact Or.inr (numericField_neg (by omega))

/-- Witness for C6 as amended: the block with cost text `2`, power text
`5000` and no counter. -/
theorem numeric_field_nonneg_unless_minus_witness :
    (sampleBlock (samplePanel (some "2") (some "5000") none)).complete ∧
    ∃ rec, cardOf noMarkup "569105" (sampleBlock (samplePanel (some "2") (some "5000") none))
        = some rec ∧ ∀ f : NumericField,
      0 ≤ f.value rec ∨ ∃ s rest, f.text (samplePanel (some "2") (some "5000") none) = some s ∧
        trimChars s.data = '-' :: rest :=
  ⟨by simp [ModalCol.complete, sampleBlock],
    numeric_field_nonneg_unless_minus noMarkup "569105" _ _
      (by simp [ModalCol.complete, sampleBlock]) rfl⟩

/-- C6, as stated, fails: the power text `-5` gives a record with power -5. -/
theorem numeric_field_negative :
    (cardOf noMarkup "569105" (sampleBlock (samplePanel (some "2") (some "-5") none))).map
      (fun r => r.power) = some (-5) ∧
    ¬ (0 : Int) ≤ -5 := by
  decide

/-- C7. For a card block that yields a record, the color (respectively the
feature) of the record is `"-"` when the field is absent, and the trimmed value
of the field when that value is not empty. -/
theorem text_field_of_text (mk : Markup) (seriesId : String) (m : ModalCol) (b : BackCol)
    (hm : m.complete) (hb : m.backCol = some b) :
    ∃ rec, cardOf mk seriesId m = some rec ∧ ∀ f : TextField,
      (f.text b = none → f.value rec = "-") ∧
      ∀ s, f.text b = some s → trim s ≠ "" → f.value rec = trim s := by
  obtain ⟨rec, hrec⟩ := cardOf_of_complete mk seriesId m hm
  refine ⟨rec, hrec, fun f => ?_⟩
  rw [(cardOf_fields hb hrec).2 f]
  refine ⟨fun h => by rw [h]; rfl, fun s hs hne => ?_⟩
  rw [hs]
  apply scalarText_some
  intro h0
  apply hne
  show String.mk (trimChars s.data) = ""
  rw [h0]

/-- Witness for C7: a block with color text ` Red ` and no feature. -/
theorem text_field_of_text_witness :
    (sampleBlock (samplePanel (some "2") (some "5000") none)).complete ∧
    (cardOf noMarkup "569105" (sampleBlock (samplePanel (some "2") (some "5000") none))).map
      (fun r => (r.color, r.feature)) = some ("Red", "-") ∧
    ∃ rec, cardOf noMarkup "569105" (sampleBlock (samplePanel (some "2") (some "5000") none))
        = some rec ∧ ∀ f : TextField,
      (f.text (samplePanel (some "2") (some "5000") none) = none → f.value rec = "-") ∧
      ∀ s, f.text (samplePanel (some "2") (some "5000") none) = some s → trim s ≠ "" →
        f.value rec = trim s :=
  ⟨by simp [ModalCol.complete, sampleBlock], by decide,
    text_field_of_text noMarkup "569105" _ _ (by simp [ModalCol.complete, sampleBlock]) rfl⟩

/-! ## Helper lemmas: `INSERT OR REPLACE` -/

theorem mem_insertOrReplace {t : SeriesTable} {row r : String × String} :
    r ∈ insertOrReplace t row ↔ (r ∈ t ∧ r.1 ≠ row.1) ∨ r = row := by
  simp [insertOrReplace]

theorem insertOrReplace_nodup {t : SeriesTable} (row : String × String)
    (ht : (t.map Prod.fst).Nodup) : ((insertOrReplace t row).map Prod.fst).Nodup := by
  unfold insertOrReplace
  rw [List.map_append, List.nodup_append]
  refine ⟨(List.filter_sublist t).map Prod.fst |>.nodup ht, by simp, ?_⟩
  intro a ha hb
  simp only [List.map_cons, List.map_nil, List.mem_singleton] at hb
  subst hb
  simp only [List.mem_map, List.mem_filter] at ha
  obtain ⟨r, ⟨_, hr⟩, hr2⟩ := ha
  simp [hr2] at hr

theorem foldl_insertOrReplace_nodup (m : JsObject) {t : SeriesTable}
    (ht : (t.map Prod.fst).Nodup) : ((m.foldl insertOrReplace t).map Prod.fst).Nodup := by
  induction m generalizing t with
  | nil => exact ht
  | cons e m ih => exact ih (insertOrReplace_nodup e ht)

theorem mem_foldl_insertOrReplace_of_mem {m : JsObject} {t : SeriesTable} {r : String × String}
    (hr : r ∈ t) (hk : r.1 ∉ m.map Prod.fst) : r ∈ m.foldl insertOrReplace t := by
  induction m generalizing t with
  | nil => exact hr
  | cons e m ih =>
    simp only [List.map_cons, List.mem_cons, not_or] at hk
    exact ih (mem_insertOrReplace.mpr (Or.inl ⟨hr, hk.1⟩)) hk.2

theorem mem_foldl_insertOrReplace_entry {m : JsObject} (t : SeriesTable) {e : String × String}
    (hm : (m.map Prod.fst).Nodup) (he : e ∈ m) : e ∈ m.foldl insertOrReplace t := by
  induction m generalizing t with
  | nil => cases he
  | cons e0 m ih =>
    simp only [List.map_cons, List.nodup_cons] at hm
    simp only [List.foldl_cons]
    rcases List.mem_cons.mp he with rfl | he
    · exact mem_foldl_insertOrReplace_of_mem (mem_insertOrReplace.mpr (Or.inr rfl)) hm.1
    · exact ih _ hm.2 he

theorem foldl_insertOrReplace_eq (m : JsObject) (t : SeriesTable) :
    m.foldl insertOrReplace t =
      t.filter (fun r => !m.any fun e => e.1 == r.1) ++ m.foldl insertOrReplace [] := by
  induction m generalizing t with
  | nil => simp
  | cons e m ih =>
    simp only [List.foldl_cons]
    rw [ih (insertOrReplace t e), ih (insertOrReplace [] e)]
    simp only [insertOrReplace, List.filter_append, List.filter_filter, List.filter_nil,
      List.nil_append, List.append_assoc]
    congr 1
    apply List.filter_congr
    intro r _
    rw [List.any_cons]
    by_cases h : e.1 = r.1
    · have h2 : (r.1 != e.1) = false := by rw [h]; exact bne_self_eq_false _
      have h3 : (e.1 == r.1) = true := by rw [h]; exact beq_self_eq_true _
      rw [h2, h3]
      simp only [Bool.and_false, Bool.true_or, Bool.not_true]
    · have h2 : (r.1 != e.1) = true := bne_iff_ne.mpr fun x => h x.symm
      have h3 : (e.1 == r.1) = false := beq_eq_false_iff_ne.mpr h
      rw [h2, h3]
      simp only [Bool.and_true, Bool.false_or]

theorem keys_foldl_insertOrReplace_nil (m : JsObject) :
    ∀ r ∈ m.foldl insertOrReplace [], (m.any fun e => e.1 == r.1) = true := by
  suffices h : ∀ (t : SeriesTable), ∀ r ∈ m.foldl insertOrReplace t,
      r ∈ t ∨ (m.any fun e => e.1 == r.1) = true by
    intro r hr
    rcases h [] r hr with h | h
    · cases h
    · exact h
  induction m with
  | nil => intro t r hr; exact Or.inl hr
  | cons e m ih =>
    intro t r hr
    rcases ih _ r hr with h | h
    · rcases mem_insertOrReplace.mp h with h | h
      · exact Or.inl h.1
      · right; simp [h]
    · right; simp [h]

theorem filter_foldl_insertOrReplace (m : JsObject) (t : SeriesTable) :
    (m.foldl insertOrReplace t).filter (fun r => !m.any fun e => e.1 == r.1) =
      t.filter (fun r => !m.any fun e => e.1 == r.1) := by
  rw [foldl_insertOrReplace_eq, List.filter_append, List.filter_filter]
  have h : (m.foldl insertOrReplace []).filter (fun r => !m.any fun e => e.1 == r.1) = [] := by
    rw [List.filter_eq_nil_iff]
    intro r hr
    simp [keys_foldl_insertOrReplace_nil m r hr]
  rw [h, List.append_nil]
  apply List.filter_congr
  intro r _
  simp

theorem foldl_insertOrReplace_idem (m : JsObject) (t : SeriesTable) :
    m.foldl insertOrReplace (m.foldl insertOrReplace t) = m.foldl insertOrReplace t := by
  rw [foldl_insertOrReplace_eq m (m.foldl insertOrReplace t), filter_foldl_insertOrReplace,
    ← foldl_insertOrReplace_eq]

/-! ## Claims on the series table -/

/-- C9. On a table `cards_series` with one row per `series_id`, the call
`saveCardSeriesList(m)` yields a table that again has one row per `series_id`,
in which every id of `m` is stored with its name in `m`, and in which the rows
of the ids that `m` does not have are those of the table before the call;
calling it once more with `m` gives the same table. -/
theorem saveCardSeriesList_upsert (t : SeriesTable) (m : JsObject)
    (ht : (t.map Prod.fst).Nodup) (hm : (m.map Prod.fst).Nodup) :
    ∃ t2, saveCardSeriesList (some t) m = some t2 ∧
      (t2.map Prod.fst).Nodup ∧
      (∀ id name, (id, name) ∈ m → (id, name) ∈ t2) ∧
      (∀ id, id ∉ m.map Prod.fst → ∀ name, (id, name) ∈ t2 ↔ (id, name) ∈ t) ∧
      t2.filter (fun r => !m.any fun e => e.1 == r.1) =
        t.filter (fun r => !m.any fun e => e.1 == r.1) ∧
      saveCardSeriesList (some t2) m = some t2 := by
  refine ⟨m.foldl insertOrReplace t, rfl, foldl_insertOrReplace_nodup m ht, ?_, ?_,
    filter_foldl_insertOrReplace m t, ?_⟩
  · intro id name h
    exact mem_foldl_insertOrReplace_entry t hm h
  · intro id hid name
    have hany : (m.any fun e => e.1 == (id, name).1) = false := by
      rw [Bool.eq_false_iff]
      intro h
      rw [List.any_eq_true] at h
      obtain ⟨e, he, hek⟩ := h
      apply hid
      rw [List.mem_map]
      exact ⟨e, he, by simpa using hek⟩
    have h1 := filter_foldl_insertOrReplace m t
    constructor
    · intro h
      have : (id, name) ∈ (m.foldl insertOrReplace t).filter
          (fun r => !m.any fun e => e.1 == r.1) := by
        rw [List.mem_filter]; exact ⟨h, by rw [hany]; rfl⟩
      rw [h1] at this
      exact (List.mem_filter.mp this).1
    · intro h
      exact mem_foldl_insertOrReplace_of_mem h hid
  · show some (m.foldl insertOrReplace (m.foldl insertOrReplace t)) = _
    rw [foldl_insertOrReplace_idem]

/-- Witness for C9: a new name for `OP01` and a new series `OP03`, on a table
that has `OP01` and `OP02`. -/
theorem saveCardSeriesList_upsert_witness :
    saveCardSeriesList (some [("OP01", "Romance Dawn"), ("OP02", "Paramount War")])
      [("OP01", "ROMANCE DAWN"), ("OP03", "Pillars of Strength")]
      = some [("OP02", "Paramount War"), ("OP01", "ROMANCE DAWN"),
          ("OP03", "Pillars of Strength")] ∧
    ∃ t2, saveCardSeriesList (some [("OP01", "Romance Dawn"), ("OP02", "Paramount War")])
        [("OP01", "ROMANCE DAWN"), ("OP03", "Pillars of Strength")] = some t2 ∧
      (t2.map Prod.fst).Nodup ∧
      (∀ id name, (id, name) ∈ [("OP01", "ROMANCE DAWN"), ("OP03", "Pillars of Strength")] →
        (id, name) ∈ t2) ∧
      (∀ id, id ∉ List.map Prod.fst [("OP01", "ROMANCE DAWN"), ("OP03", "Pillars of Strength")] →
        ∀ name, (id, name) ∈ t2 ↔
          (id, name) ∈ [("OP01", "Romance Dawn"), ("OP02", "Paramount War")]) ∧
      t2.filter (fun r => !List.any [("OP01", "ROMANCE DAWN"), ("OP03", "Pillars of Strength")]
          fun e => e.1 == r.1) =
        List.filter (fun r => !List.any [("OP01", "ROMANCE DAWN"), ("OP03", "Pillars of Strength")]
          fun e => e.1 == r.1) [("OP01", "Romance Dawn"), ("OP02", "Paramount War")] ∧
      saveCardSeriesList (some t2) [("OP01", "ROMANCE DAWN"), ("OP03", "Pillars of Strength")]
        = some t2 :=
  ⟨by decide, saveCardSeriesList_upsert _ _ (by decide) (by decide)⟩

/-- C8 fails on the code: `Common` has no method `processSeriesName`, so for
the options of the example the loop of `getCardSeriesList` throws at its first
turn, the error is logged and nothing is stored. With the method defined (here
as the identity) the series of the example would be stored. -/
theorem getCardSeriesList_stores_nothing :
    getCardSeriesList Common.create exampleOptions none
      = (none, ["getCardSeriesList : this.common.processSeriesName is not a function"]) ∧
    seriesOptions exampleOptions = [("Romance Dawn", "OP01"), ("Paramount War", "OP02")] ∧
    getCardSeriesList ⟨some fun s => s⟩ exampleOptions none
      = (some [("OP01", "Romance Dawn"), ("OP02", "Paramount War")], []) := by
  decide

/-! ## Claims on `saveSeriesDatabase` -/

theorem record_cardInfoRow (cid : Nat) (c : CardRecord) : (cardInfoRow cid c).record = c := rfl

theorem insertLoop_spec (failAt : Option Nat) (k : Nat) (t : List CardInfoRow)
    (rows : List CardRecord) :
    ∃ ext, (insertLoop failAt k t rows).1 = t ++ ext ∧
      ((insertLoop failAt k t rows).2 = false → ext.map CardInfoRow.record = rows) := by
  induction rows generalizing k t with
  | nil => exact ⟨[], by simp [insertLoop], by simp [insertLoop]⟩
  | cons c rows ih =>
    by_cases hf : failAt = some k
    · exact ⟨[], by simp [insertLoop, hf], by simp [insertLoop, hf]⟩
    · obtain ⟨ext, h1, h2⟩ := ih (k + 1) (t ++ [cardInfoRow (nextCid t) c])
      refine ⟨cardInfoRow (nextCid t) c :: ext, ?_, ?_⟩
      · simp only [insertLoop, hf, if_false]
        rw [h1]; simp
      · simp only [insertLoop, hf, if_false]
        intro h
        rw [List.map_cons, h2 h, record_cardInfoRow]

/-- C10. When `saveSeriesDatabase(rows)` runs without an error, the table is
the table before the call followed by one new row per element of `rows`, in
order; a second such call with the same list adds the rows once more, so that
the table has `2 * |rows|` rows more than at the start. -/
theorem saveSeriesDatabase_appends (failAt failAt2 : Option Nat) (t : List CardInfoRow)
    (rows : List CardRecord)
    (h1 : (saveSeriesDatabase failAt t rows).2 = false)
    (h2 : (saveSeriesDatabase failAt2 (saveSeriesDatabase failAt t rows).1 rows).2 = false) :
    ∃ new1 new2,
      (saveSeriesDatabase failAt t rows).1 = t ++ new1 ∧
      new1.map CardInfoRow.record = rows ∧
      (saveSeriesDatabase failAt2 (saveSeriesDatabase failAt t rows).1 rows).1
        = t ++ new1 ++ new2 ∧
      new2.map CardInfoRow.record = rows ∧
      (saveSeriesDatabase failAt2 (saveSeriesDatabase failAt t rows).1 rows).1.length
        = t.length + 2 * rows.length := by
  obtain ⟨new1, e1, r1⟩ := insertLoop_spec failAt 0 t rows
  obtain ⟨new2, e2, r2⟩ := insertLoop_spec failAt2 0 (saveSeriesDatabase failAt t rows).1 rows
  have hr1 := r1 h1
  have hr2 := r2 h2
  have e1b : (saveSeriesDatabase failAt t rows).1 = t ++ new1 := e1
  have e2b : (saveSeriesDatabase failAt2 (saveSeriesDatabase failAt t rows).1 rows).1
      = (saveSeriesDatabase failAt t rows).1 ++ new2 := e2
  refine ⟨new1, new2, e1b, hr1, by rw [e2b, e1b], hr2, ?_⟩
  have l1 : new1.length = rows.length := by rw [← hr1, List.length_map]
  have l2 : new2.length = rows.length := by rw [← hr2, List.length_map]
  rw [e2b, e1b, List.length_append, List.length_append, l1, l2]
  omega

/-- Witness for C10: the same two records saved twice on a table of two
rows. -/
theorem saveSeriesDatabase_appends_witness :
    (saveSeriesDatabase none twoPrints sampleRecords).2 = false ∧
    (saveSeriesDatabase none (saveSeriesDatabase none twoPrints sampleRecords).1
      sampleRecords).2 = false ∧
    ∃ new1 new2,
      (saveSeriesDatabase none twoPrints sampleRecords).1 = twoPrints ++ new1 ∧
      new1.map CardInfoRow.record = sampleRecords ∧
      (saveSeriesDatabase none (saveSeriesDatabase none twoPrints sampleRecords).1
        sampleRecords).1 = twoPrints ++ new1 ++ new2 ∧
      new2.map CardInfoRow.record = sampleRecords ∧
      (saveSeriesDatabase none (saveSeriesDatabase none twoPrints sampleRecords).1
        sampleRecords).1.length = twoPrints.length + 2 * sampleRecords.length :=
  ⟨by decide, by decide, saveSeriesDatabase_appends none none twoPrints sampleRecords
    (by decide) (by decide)⟩

/-! ## Claims on the lookup of the variant `cid` -/

/-- C17. The `cid` stored in the variant built from a raw row `r` is the `cid`
of a row of the new `cards_info` with the `card_id` of `r`, it is the smallest
`cid` among the rows of that table with that `card_id`, and it is the `cid` of
the canonical card built from `r` itself when the `card_id`s of the raw rows
are pairwise distinct. -/
theorem variant_cid_is_smallest (t : List CardInfoRow) (prior : List ImageInfoRow) (i : Nat)
    (r : CardInfoRow) (hr : t[i]? = some r) :
    ∃ c, variantCid t prior i = some c ∧
      (∃ row ∈ (normalizeDatabase t prior).1, row.cid = c ∧ row.card_id = r.card_id) ∧
      (∀ row ∈ (normalizeDatabase t prior).1, row.card_id = r.card_id → c ≤ row.cid) ∧
      ((t.map fun x => x.card_id).Nodup → canonicalCid t i = some c) := by
  obtain ⟨hi, hri⟩ := List.getElem?_eq_some_iff.mp hr
  obtain ⟨j, hj, _, hsame, hfirst⟩ := exists_first_with_card_id t hi
  have hv : variantCid t prior i = some (canonicalPos t j + 1) := by
    simp only [variantCid, variantOf_eq prior hi, Option.some_bind, imageInfoRow]
    exact selectCid_of_first hi hj hsame hfirst
  refine ⟨canonicalPos t j + 1, hv, ?_, ?_, ?_⟩
  · refine ⟨newCardsInfoRow (canonicalPos t j + 1) t[j], ?_, rfl, ?_⟩
    · exact List.getElem?_mem (canonicalOf_eq hj)
    · show (t[j]).card_id = r.card_id
      rw [hsame, hri]
  · intro row hrow hcard
    obtain ⟨k, hk⟩ := List.mem_iff_getElem?.mp hrow
    have hk2 : (selectNewCardsInfo t)[k]? = some row := hk
    rw [selectNewCardsInfo_at] at hk2
    cases hp : (windowOrder t)[k]? with
    | none => rw [hp] at hk2; cases hk2
    | some p =>
      rw [hp] at hk2
      simp only [Option.map_some', Option.some.injEq] at hk2
      obtain ⟨hpos, hq⟩ := canonicalPos_of_at hp
      obtain ⟨hqlt, hq2⟩ := List.getElem?_eq_some_iff.mp hq
      have hc : (t[p.1]).card_id = (t[i]).card_id := by
        rw [hq2, hri, ← hcard, ← hk2]; rfl
      have hcid : row.cid = k + 1 := by rw [← hk2]; rfl
      rw [hcid]
      rcases Nat.lt_trichotomy p.1 j with h | h | h
      · exact absurd hc (hfirst p.1 hqlt h)
      · have : canonicalPos t j = k := by rw [← hpos, h]
        omega
      · have hle : textLe (t[j]).card_id (t[p.1]).card_id = true := by
          rw [hsame, hc]; exact textLe_refl _
        have := canonicalPos_lt_of_tie h hqlt hle
        omega
  · intro hnd
    have hji : j = i := by
      have h1 : (t.map fun x => x.card_id)[j]? = (t.map fun x => x.card_id)[i]? := by
        rw [List.getElem?_map, List.getElem?_map, List.getElem?_eq_getElem hj,
          List.getElem?_eq_getElem hi]
        exact congrArg some hsame
      have hj2 : j < (t.map fun x => x.card_id).length := by simpa using hj
      have hi2 : i < (t.map fun x => x.card_id).length := by simpa using hi
      rw [List.getElem?_eq_getElem hj2, List.getElem?_eq_getElem hi2] at h1
      exact (List.Nodup.getElem_inj_iff hnd).mp (Option.some.inj h1)
    subst hji
    simp [canonicalCid, canonicalOf_eq hj, newCardsInfoRow]

/-- Witness for C17: the alternate-art print of `OP05-002`, stored after
`OP01-001`, gets the `cid` 2 of the first print. -/
theorem variant_cid_is_smallest_witness :
    threeRows[2]? = some (sampleRow 3 "OP05-002" "/images/cardlist/card/OP05-002_p1.png") ∧
    variantCid threeRows [] 2 = some 2 ∧
    ∃ c, variantCid threeRows [] 2 = some c ∧
      (∃ row ∈ (normalizeDatabase threeRows []).1, row.cid = c ∧ row.card_id = "OP05-002") ∧
      (∀ row ∈ (normalizeDatabase threeRows []).1, row.card_id = "OP05-002" → c ≤ row.cid) ∧
      ((threeRows.map fun x => x.card_id).Nodup → canonicalCid threeRows 2 = some c) :=
  ⟨rfl, by decide, variant_cid_is_smallest threeRows [] 2 _ rfl⟩

/-! ## Claims on a failure inside `saveSeriesDatabase` -/

/-- A failure at the insert number `k0 + j` leaves in the table the rows of
the `j` inserts that ran before it. -/
theorem insertLoop_keeps_rows_before_failure (rows : List CardRecord) (k0 j : Nat)
    (t : List CardInfoRow) (hj : j < rows.length) :
    insertLoop (some (k0 + j)) k0 t rows =
      ((insertLoop none k0 t (rows.take j)).1, true) := by
  induction rows generalizing k0 j t with
  | nil => simp at hj
  | cons c rows ih =>
    cases j with
    | zero => simp [insertLoop]
    | succ j =>
      have hne : ¬ k0 + (j + 1) = k0 := by omega
      have hj2 : j < rows.length := by simpa using hj
      have hidx : k0 + (j + 1) = k0 + 1 + j := by omega
      simp only [insertLoop, Option.some.injEq, hne, if_false, List.take_succ_cons, reduceCtorEq]
      rw [hidx]
      exact ih (k0 + 1) j _ hj2

/-- C11 fails on the code: the inserts of `saveSeriesDatabase` run outside any
transaction. When the second of two inserts fails on a table of two rows, the
error is caught and the table keeps the row of the first insert: it has three
rows and is not the table before the call. -/
theorem saveSeriesDatabase_keeps_partial_batch :
    (saveSeriesDatabase (some 1) twoPrints sampleRecords).2 = true ∧
    (saveSeriesDatabase (some 1) twoPrints sampleRecords).1 =
      twoPrints ++ [sampleRow 3 "OP05-002" "/images/cardlist/card/OP05-002.png"] ∧
    (saveSeriesDatabase (some 1) twoPrints sampleRecords).1 ≠ twoPrints := by
  decide

/-! ## Claims on `fetchCardInfoWithSeriesId` -/

theorem textLe_iff_le (a b : String) : textLe a b = true ↔ a ≤ b := by
  unfold textLe
  rw [binaryLe_iff_not_lt]
  show ¬ b.data < a.data ↔ ¬ b < a
  rw [String.lt_iff_toList_lt]
  rfl

theorem seriesOrderLe_iff (a b : String × String) :
    seriesOrderLe a b = true ↔ a.2 < b.2 ∨ (a.2 = b.2 ∧ a.1 ≤ b.1) := by
  unfold seriesOrderLe
  rw [Bool.or_eq_true, Bool.and_eq_true, textLt_iff_lt, textLe_iff_le, beq_iff_eq]

theorem seriesOrderLe_total (a b : String × String) :
    seriesOrderLe a b = true ∨ seriesOrderLe b a = true := by
  rw [seriesOrderLe_iff, seriesOrderLe_iff]
  rcases lt_trichotomy a.2 b.2 with h | h | h
  · exact Or.inl (Or.inl h)
  · rcases le_total a.1 b.1 with h1 | h1
    · exact Or.inl (Or.inr ⟨h, h1⟩)
    · exact Or.inr (Or.inr ⟨h.symm, h1⟩)
  · exact Or.inr (Or.inl h)

theorem seriesOrderLe_trans (a b c : String × String) (hab : seriesOrderLe a b = true)
    (hbc : seriesOrderLe b c = true) : seriesOrderLe a c = true := by
  rw [seriesOrderLe_iff] at hab hbc ⊢
  rcases hab with h1 | ⟨h1, h2⟩
  · rcases hbc with h3 | ⟨h3, _⟩
    · exact Or.inl (lt_trans h1 h3)
    · exact Or.inl (h3 ▸ h1)
  · rcases hbc with h3 | ⟨h3, h4⟩
    · exact Or.inl (h1 ▸ h3)
    · exact Or.inr ⟨h1.trans h3, le_trans h2 h4⟩

theorem mem_joinRows {cii : List ImageInfoRow} {ci : List NewCardInfoRow} {sc : SeriesTable}
    {row : JoinedRow} (h : row ∈ joinRows cii ci sc) :
    row.cii ∈ cii ∧ row.ci ∈ ci ∧ row.sc ∈ sc ∧ row.cii.cid = some row.ci.cid ∧
      row.cii.series_id = row.sc.1 := by
  simp only [joinRows, List.mem_flatMap, List.mem_filter, List.mem_map, beq_iff_eq] at h
  obtain ⟨x, hx, y, ⟨hy, hxy⟩, z, ⟨hz, hxz⟩, rfl⟩ := h
  exact ⟨hx, hy, hz, hxy, hxz⟩

/-- C12. The list returned by `fetchCardInfoWithSeriesId` is the projection of
the rows of the join taken in an order in which the series of the rows are in
non-decreasing order of series name, then series id; the series of a row is the
row of `cards_series` whose id is the `series_id` of the variant of that row. -/
theorem fetchCardInfoWithSeriesId_sorted (cards_image_info : List ImageInfoRow)
    (cards_info : List NewCardInfoRow) (cards_series : SeriesTable) :
    fetchCardInfoWithSeriesId cards_image_info cards_info cards_series =
      (orderedJoin cards_image_info cards_info cards_series).map
        (fun row => { cid := row.ci.cid, img_src := row.cii.img_src, series_name := row.sc.2 }) ∧
    (orderedJoin cards_image_info cards_info cards_series).Pairwise
      (fun a b => a.sc.2 < b.sc.2 ∨ (a.sc.2 = b.sc.2 ∧ a.sc.1 ≤ b.sc.1)) ∧
    (fetchCardInfoWithSeriesId cards_image_info cards_info cards_series).Pairwise
      (fun a b => a.series_name ≤ b.series_name) ∧
    (orderedJoin cards_image_info cards_info cards_series).Perm
      (joinRows cards_image_info cards_info cards_series) ∧
    ∀ row ∈ orderedJoin cards_image_info cards_info cards_series,
      row.cii ∈ cards_image_info ∧ row.ci ∈ cards_info ∧ row.sc ∈ cards_series ∧
        row.cii.cid = some row.ci.cid ∧ row.cii.series_id = row.sc.1 := by
  have hsorted : (orderedJoin cards_image_info cards_info cards_series).Pairwise
      (fun a b => seriesOrderLe a.sc b.sc = true) :=
    @List.sorted_insertionSort _ (fun a b : JoinedRow => seriesOrderLe a.sc b.sc = true) _
      ⟨fun _ _ => seriesOrderLe_total _ _⟩ ⟨fun _ _ _ h1 h2 => seriesOrderLe_trans _ _ _ h1 h2⟩ _
  have hnative : (orderedJoin cards_image_info cards_info cards_series).Pairwise
      (fun a b => a.sc.2 < b.sc.2 ∨ (a.sc.2 = b.sc.2 ∧ a.sc.1 ≤ b.sc.1)) :=
    hsorted.imp fun h => (seriesOrderLe_iff _ _).mp h
  refine ⟨rfl, hnative, ?_, List.perm_insertionSort _ _, ?_⟩
  · unfold fetchCardInfoWithSeriesId
    rw [List.pairwise_map]
    refine hnative.imp ?_
    intro a b h
    rcases h with h | ⟨h, _⟩
    · exact le_of_lt h
    · exact le_of_eq h
  · intro row hrow
    have : row ∈ joinRows cards_image_info cards_info cards_series :=
      (List.perm_insertionSort _ _).mem_iff.mp hrow
    exact mem_joinRows this

/-! ## Helper lemmas: the loop over the series -/

theorem insertLoop_error_indep (failAt : Option Nat) (k : Nat) (t t2 : List CardInfoRow)
    (rows : List CardRecord) :
    (insertLoop failAt k t rows).2 = (insertLoop failAt k t2 rows).2 := by
  induction rows generalizing k t t2 with
  | nil => rfl
  | cons c rows ih =>
    by_cases hf : failAt = some k
    · simp [insertLoop, hf]
    · simp only [insertLoop, hf, if_false]
      exact ih _ _ _

theorem handleSeriesCardlist_of_launches (mk : Markup) (visit : Extraction) (seriesId : String)
    (s : RunState) (h : visit.launches = true) :
    (handleSeriesCardlist mk visit seriesId s).2 = none ∧
    (handleSeriesCardlist mk visit seriesId s).1.called = s.called ++ [seriesId] ∧
    (handleSeriesCardlist mk visit seriesId s).1.log = s.log ++ visitLog mk seriesId visit ∧
    (handleSeriesCardlist mk visit seriesId s).1.cards_series = s.cards_series := by
  cases visit with
  | launchFails m => simp [Extraction.launches] at h
  | pageFails m => simp [handleSeriesCardlist, visitLog]
  | loaded modalCols failAt =>
    cases hc : cardsOf mk seriesId modalCols with
    | none => simp [handleSeriesCardlist, visitLog, hc]
    | some cards =>
      have he : (saveSeriesDatabase failAt s.cards_info cards).2
          = (saveSeriesDatabase failAt [] cards).2 := insertLoop_error_indep _ _ _ _ _
      simp only [handleSeriesCardlist, visitLog, hc, he, true_and]
      cases (saveSeriesDatabase failAt [] cards).2 <;> simp

theorem handleSeriesCardlist_of_launchFails (mk : Markup) (message seriesId : String)
    (s : RunState) :
    handleSeriesCardlist mk (.launchFails message) seriesId s =
      ({ s with called := s.called ++ [seriesId] }, some message) := rfl

theorem seriesLoop_of_launches (mk : Markup) (site : String → Extraction)
    (targetSeries : List String) (index : List (String × String)) (s : RunState)
    (h : ∀ e ∈ index, isTargeted targetSeries e.1 = true → (site e.1).launches = true) :
    (seriesLoop mk site targetSeries index s).2 = none ∧
    (seriesLoop mk site targetSeries index s).1.called =
      s.called ++ (targetedEntries targetSeries index).map Prod.fst ∧
    (seriesLoop mk site targetSeries index s).1.log =
      s.log ++ (targetedEntries targetSeries index).flatMap
        (fun e => visitLog mk e.1 (site e.1)) ∧
    (seriesLoop mk site targetSeries index s).1.cards_series = s.cards_series := by
  induction index generalizing s with
  | nil => simp [seriesLoop, targetedEntries]
  | cons e rest ih =>
    have hrest : ∀ e2 ∈ rest, isTargeted targetSeries e2.1 = true →
        (site e2.1).launches = true :=
      fun e2 h2 => h e2 (List.mem_cons_of_mem _ h2)
    by_cases ht : isTargeted targetSeries e.1 = true
    · obtain ⟨h1, h2, h3, h4⟩ :=
        handleSeriesCardlist_of_launches mk (site e.1) e.1 s (h e (List.mem_cons_self _ _) ht)
      have hstep : seriesLoop mk site targetSeries (e :: rest) s =
          seriesLoop mk site targetSeries rest (handleSeriesCardlist mk (site e.1) e.1 s).1 := by
        simp only [seriesLoop, ht, if_true]
        cases hr : handleSeriesCardlist mk (site e.1) e.1 s with
        | mk s1 thrown =>
          rw [hr] at h1
          simp only at h1
          subst h1
          rfl
      obtain ⟨i1, i2, i3, i4⟩ := ih (handleSeriesCardlist mk (site e.1) e.1 s).1 hrest
      rw [hstep]
      refine ⟨i1, ?_, ?_, ?_⟩
      · rw [i2, h2]; simp [targetedEntries, ht]
      · rw [i3, h3]; simp [targetedEntries, ht]
      · rw [i4, h4]
    · have hstep : seriesLoop mk site targetSeries (e :: rest) s =
          seriesLoop mk site targetSeries rest s := by
        simp only [seriesLoop, ht]
        rfl
      obtain ⟨i1, i2, i3, i4⟩ := ih s hrest
      rw [hstep]
      refine ⟨i1, ?_, ?_, i4⟩
      · rw [i2]; simp [targetedEntries, ht]
      · rw [i3]; simp [targetedEntries, ht]

theorem seriesLoop_append (mk : Markup) (site : String → Extraction)
    (targetSeries : List String) (pre rest : List (String × String)) (s : RunState)
    (h : (seriesLoop mk site targetSeries pre s).2 = none) :
    seriesLoop mk site targetSeries (pre ++ rest) s =
      seriesLoop mk site targetSeries rest (seriesLoop mk site targetSeries pre s).1 := by
  induction pre generalizing s with
  | nil => rfl
  | cons e pre ih =>
    by_cases ht : isTargeted targetSeries e.1 = true
    · simp only [List.cons_append, seriesLoop, ht, if_true] at h ⊢
      cases hr : handleSeriesCardlist mk (site e.1) e.1 s with
      | mk s1 thrown =>
        rw [hr] at h
        cases thrown with
        | some m => simp at h
        | none =>
          simp only at h ⊢
          exact ih s1 h
    · simp only [List.cons_append, seriesLoop, ht] at h ⊢
      exact ih s h

theorem handleAllCardList_of_returns (common : Common) (elements : List (String × String))
    (mk : Markup) (site : String → Extraction) (targetSeries : List String) (s : RunState)
    (h : (seriesLoop mk site targetSeries (seriesIndex common elements s.cards_series)
      (afterDiscovery common elements s)).2 = none) :
    handleAllCardList common elements mk site targetSeries s =
      (seriesLoop mk site targetSeries (seriesIndex common elements s.cards_series)
        (afterDiscovery common elements s)).1 := by
  unfold handleAllCardList
  cases hr : seriesLoop mk site targetSeries (seriesIndex common elements s.cards_series)
      (afterDiscovery common elements s) with
  | mk s2 thrown =>
    rw [hr] at h
    simp only at h
    subst h
    rfl

theorem handleAllCardList_of_throws (common : Common) (elements : List (String × String))
    (mk : Markup) (site : String → Extraction) (targetSeries : List String) (s : RunState)
    (message : String)
    (h : (seriesLoop mk site targetSeries (seriesIndex common elements s.cards_series)
      (afterDiscovery common elements s)).2 = some message) :
    handleAllCardList common elements mk site targetSeries s =
      { (seriesLoop mk site targetSeries (seriesIndex common elements s.cards_series)
          (afterDiscovery common elements s)).1 with
        log := (seriesLoop mk site targetSeries (seriesIndex common elements s.cards_series)
          (afterDiscovery common elements s)).1.log ++ ["handleAllCardList : " ++ message] } := by
  unfold handleAllCardList
  cases hr : seriesLoop mk site targetSeries (seriesIndex common elements s.cards_series)
      (afterDiscovery common elements s) with
  | mk s2 thrown =>
    rw [hr] at h
    simp only at h
    subst h
    rfl

theorem visitLog_ne_nil (mk : Markup) (seriesId : String) (visit : Extraction)
    (h : visit.failsInside mk seriesId = true) : visitLog mk seriesId visit ≠ [] := by
  cases visit with
  | launchFails m => simp [Extraction.failsInside] at h
  | pageFails m => simp [visitLog]
  | loaded modalCols failAt =>
    cases hc : cardsOf mk seriesId modalCols with
    | none => simp [visitLog, hc]
    | some cards =>
      simp only [Extraction.failsInside, hc] at h
      simp [visitLog, hc, h]

/-! ## Claims on `handleAllCardList` -/

/-- C13, as amended. In a run in which the browser starts and opens a page for
every targeted series, the
series ids that `handleAllCardList` passes to `handleSeriesCardlist` are, in
the order of the index, the ids of the entries of the index selected by
`targetSeries`: all entries when `targetSeries` is empty, and otherwise the
entries whose id occurs in `targetSeries`; an id that is not in the index is
never passed. -/
theorem handleAllCardList_visits_targeted (common : Common) (elements : List (String × String))
    (mk : Markup) (site : String → Extraction) (targetSeries : List String) (s : RunState)
    (hlaunch : ∀ e ∈ seriesIndex common elements s.cards_series,
      isTargeted targetSeries e.1 = true → (site e.1).launches = true) :
    (handleAllCardList common elements mk site targetSeries s).called =
      s.called ++
        (targetedEntries targetSeries (seriesIndex common elements s.cards_series)).map Prod.fst ∧
    (targetSeries = [] →
      targetedEntries targetSeries (seriesIndex common elements s.cards_series) =
        seriesIndex common elements s.cards_series) ∧
    (targetSeries ≠ [] →
      targetedEntries targetSeries (seriesIndex common elements s.cards_series) =
        (seriesIndex common elements s.cards_series).filter
          (fun e => decide (e.1 ∈ targetSeries))) ∧
    (targetedEntries targetSeries (seriesIndex common elements s.cards_series)).Sublist
      (seriesIndex common elements s.cards_series) ∧
    ∀ id, id ∉ (seriesIndex common elements s.cards_series).map Prod.fst →
      id ∉ (targetedEntries targetSeries (seriesIndex common elements s.cards_series)).map
        Prod.fst := by
  refine ⟨?_, ?_, ?_, List.filter_sublist _, ?_⟩
  · obtain ⟨h1, h2, _, _⟩ := seriesLoop_of_launches mk site targetSeries
      (seriesIndex common elements s.cards_series) (afterDiscovery common elements s) hlaunch
    rw [handleAllCardList_of_returns common elements mk site targetSeries s h1, h2]
    rfl
  · intro h
    subst h
    unfold targetedEntries
    rw [List.filter_eq_self]
    intro e _
    rfl
  · intro h
    unfold targetedEntries
    apply List.filter_congr
    intro e _
    cases targetSeries with
    | nil => exact absurd rfl h
    | cons a l => simp [isTargeted, List.contains_eq_any_beq, List.any_eq_true]
  · intro id hid hmem
    apply hid
    rw [List.mem_map] at hmem ⊢
    obtain ⟨e, he, rfl⟩ := hmem
    exact ⟨e, (List.mem_filter.mp he).1, rfl⟩

/-- Witness for C13: a store with the series `569102`, `569101`, `569201` and
the allow-list `569201`, `zz`, `569101`. -/
theorem handleAllCardList_visits_targeted_witness :
    (handleAllCardList Common.create exampleOptions noMarkup sampleSite
      ["569201", "zz", "569101"] sampleStore).called = ["569101", "569201"] ∧
    seriesIndex Common.create exampleOptions sampleStore.cards_series =
      [("569101", "ROMANCE DAWN"), ("569102", "PARAMOUNT WAR"), ("569201", "EXTRA BOOSTER")] ∧
    (handleAllCardList Common.create exampleOptions noMarkup sampleSite
        ["569201", "zz", "569101"] sampleStore).called =
      sampleStore.called ++
        (targetedEntries ["569201", "zz", "569101"]
          (seriesIndex Common.create exampleOptions sampleStore.cards_series)).map Prod.fst :=
  ⟨by decide, by decide,
    (handleAllCardList_visits_targeted Common.create exampleOptions noMarkup sampleSite
      ["569201", "zz", "569101"] sampleStore (by decide)).1⟩

/-- C13, as stated, fails: with the allow-list `569101`, `569201` on the index
`569101`, `569102`, `569201`, the browser does not start for series `569101`;
the error ends the loop, and the only id passed to `handleSeriesCardlist` is
`569101`, not the two targeted ids. With an empty allow-list the ids passed are
not the whole index either. -/
theorem handleAllCardList_visits_cut_short :
    (targetedEntries ["569101", "569201"]
      (seriesIndex Common.create exampleOptions sampleStore.cards_series)).map Prod.fst
      = ["569101", "569201"] ∧
    (handleAllCardList Common.create exampleOptions noMarkup brokenSite
      ["569101", "569201"] sampleStore).called = ["569101"] ∧
    (handleAllCardList Common.create exampleOptions noMarkup brokenSite
        ["569101", "569201"] sampleStore).called ≠
      sampleStore.called ++
        (targetedEntries ["569101", "569201"]
          (seriesIndex Common.create exampleOptions sampleStore.cards_series)).map Prod.fst ∧
    (handleAllCardList Common.create exampleOptions noMarkup brokenSite [] sampleStore).called ≠
      sampleStore.called ++
        (seriesIndex Common.create exampleOptions sampleStore.cards_series).map Prod.fst := by
  decide

/-- C16, as amended. When the browser starts for every targeted series, a
failure of the extraction of a series after its page is open (navigation,
evaluation of the page, storage) is logged, and `handleSeriesCardlist` is
called for every targeted series of the index, the later ones included. When
the browser launch or the opening of the page fails for a targeted series, the
error is logged by `handleAllCardList` and that series is the last one for
which `handleSeriesCardlist` is called. -/
theorem handleAllCardList_failure_isolation (common : Common)
    (elements : List (String × String)) (mk : Markup) (site : String → Extraction)
    (targetSeries : List String) (s : RunState) :
    ((∀ e ∈ seriesIndex common elements s.cards_series,
        isTargeted targetSeries e.1 = true → (site e.1).launches = true) →
      (handleAllCardList common elements mk site targetSeries s).log =
        (afterDiscovery common elements s).log ++
          (targetedEntries targetSeries (seriesIndex common elements s.cards_series)).flatMap
            (fun e => visitLog mk e.1 (site e.1)) ∧
      (∀ e ∈ seriesIndex common elements s.cards_series, isTargeted targetSeries e.1 = true →
        e.1 ∈ (handleAllCardList common elements mk site targetSeries s).called) ∧
      ∀ e ∈ seriesIndex common elements s.cards_series, isTargeted targetSeries e.1 = true →
        (site e.1).failsInside mk e.1 = true →
        ∃ entry ∈ visitLog mk e.1 (site e.1),
          entry ∈ (handleAllCardList common elements mk site targetSeries s).log) ∧
    ∀ pre e post message, seriesIndex common elements s.cards_series = pre ++ e :: post →
      (∀ e2 ∈ pre, isTargeted targetSeries e2.1 = true → (site e2.1).launches = true) →
      isTargeted targetSeries e.1 = true → site e.1 = .launchFails message →
      (handleAllCardList common elements mk site targetSeries s).called =
        s.called ++ (targetedEntries targetSeries pre).map Prod.fst ++ [e.1] ∧
      (handleAllCardList common elements mk site targetSeries s).log.getLast? =
        some ("handleAllCardList : " ++ message) := by
  constructor
  · intro hlaunch
    obtain ⟨h1, h2, h3, _⟩ := seriesLoop_of_launches mk site targetSeries
      (seriesIndex common elements s.cards_series) (afterDiscovery common elements s) hlaunch
    rw [handleAllCardList_of_returns common elements mk site targetSeries s h1]
    refine ⟨h3, ?_, ?_⟩
    · intro e he ht
      rw [h2]
      apply List.mem_append_right
      rw [List.mem_map]
      exact ⟨e, List.mem_filter.mpr ⟨he, ht⟩, rfl⟩
    · intro e he ht hf
      obtain ⟨entry, hentry⟩ := List.exists_mem_of_ne_nil _ (visitLog_ne_nil mk e.1 (site e.1) hf)
      refine ⟨entry, hentry, ?_⟩
      rw [h3]
      apply List.mem_append_right
      rw [List.mem_flatMap]
      exact ⟨e, List.mem_filter.mpr ⟨he, ht⟩, hentry⟩
  · intro pre e post message hidx hpre ht hsite
    obtain ⟨p1, p2, _, _⟩ := seriesLoop_of_launches mk site targetSeries pre
      (afterDiscovery common elements s) hpre
    have hloop : seriesLoop mk site targetSeries (seriesIndex common elements s.cards_series)
        (afterDiscovery common elements s) =
        ({ (seriesLoop mk site targetSeries pre (afterDiscovery common elements s)).1 with
            called := (seriesLoop mk site targetSeries pre
              (afterDiscovery common elements s)).1.called ++ [e.1] }, some message) := by
      rw [hidx, seriesLoop_append mk site targetSeries pre (e :: post) _ p1]
      simp only [seriesLoop, ht, if_true, hsite, handleSeriesCardlist_of_launchFails]
    have hthrown : (seriesLoop mk site targetSeries (seriesIndex common elements s.cards_series)
        (afterDiscovery common elements s)).2 = some message := by rw [hloop]
    rw [handleAllCardList_of_throws common elements mk site targetSeries s message hthrown, hloop]
    refine ⟨?_, ?_⟩
    · show (seriesLoop mk site targetSeries pre (afterDiscovery common elements s)).1.called
        ++ [e.1] = _
      rw [p2]
      rfl
    · show (_ ++ ["handleAllCardList : " ++ message]).getLast? = _
      rw [List.getLast?_append]
      rfl

/-- Witness for C16 as amended: on a site where the page of series `569101`
fails to load, the later series are still visited; on a site where the browser
does not start for series `569101`, the first of the index, no other series is
visited. -/
theorem handleAllCardList_failure_isolation_witness :
    (handleAllCardList Common.create exampleOptions noMarkup sampleSite [] sampleStore).called
      = ["569101", "569102", "569201"] ∧
    (handleAllCardList Common.create exampleOptions noMarkup sampleSite [] sampleStore).log =
      (afterDiscovery Common.create exampleOptions sampleStore).log ++
        (targetedEntries [] (seriesIndex Common.create exampleOptions
          sampleStore.cards_series)).flatMap (fun e => visitLog noMarkup e.1 (sampleSite e.1)) ∧
    (handleAllCardList Common.create exampleOptions noMarkup brokenSite [] sampleStore).called =
        sampleStore.called ++ (targetedEntries [] []).map Prod.fst ++ ["569101"] ∧
    (handleAllCardList Common.create exampleOptions noMarkup brokenSite [] sampleStore).log.getLast?
      = some ("handleAllCardList : " ++ "Failed to launch the browser process") :=
  ⟨by decide,
    ((handleAllCardList_failure_isolation Common.create exampleOptions noMarkup sampleSite []
      sampleStore).1 (by decide)).1,
    ((handleAllCardList_failure_isolation Common.create exampleOptions noMarkup brokenSite []
      sampleStore).2 [] ("569101", "ROMANCE DAWN")
      [("569102", "PARAMOUNT WAR"), ("569201", "EXTRA BOOSTER")]
      "Failed to launch the browser process" (by decide) (by decide) (by decide) (by decide)).1,
    ((handleAllCardList_failure_isolation Common.create exampleOptions noMarkup brokenSite []
      sampleStore).2 [] ("569101", "ROMANCE DAWN")
      [("569102", "PARAMOUNT WAR"), ("569201", "EXTRA BOOSTER")]
      "Failed to launch the browser process" (by decide) (by decide) (by decide) (by decide)).2⟩

/-- C16, as stated, fails: when the browser does not start for series
`569101`, the first of three targeted series, the error is logged by
`handleAllCardList` and `handleSeriesCardlist` is never called for the two
later series. -/
theorem handleAllCardList_stops_at_launch_failure :
    seriesIndex Common.create exampleOptions sampleStore.cards_series =
      [("569101", "ROMANCE DAWN"), ("569102", "PARAMOUNT WAR"), ("569201", "EXTRA BOOSTER")] ∧
    (handleAllCardList Common.create exampleOptions noMarkup brokenSite [] sampleStore).called
      = ["569101"] ∧
    "569102" ∉
      (handleAllCardList Common.create exampleOptions noMarkup brokenSite [] sampleStore).called ∧
    (handleAllCardList Common.create exampleOptions noMarkup brokenSite [] sampleStore).log =
      ["getCardSeriesList : this.common.processSeriesName is not a function",
       "handleAllCardList : Failed to launch the browser process"] := by
  decide

/-! ## Claims on the fetch stage -/

theorem fetchLoop_stops_at_failure (languageUrl : String) (transfers : Nat → Transfer)
    (pre : List DownloadInfo) (cardInfo : DownloadInfo) (post : List DownloadInfo)
    (message : String) (k : Nat) (s : FetchState)
    (hpre : ∀ j, j < pre.length → transfers (k + j) = .saved)
    (hfail : transfers (k + pre.length) = .failed message) :
    (fetchLoop languageUrl transfers k (pre ++ cardInfo :: post) s).2 = some message ∧
    (fetchLoop languageUrl transfers k (pre ++ cardInfo :: post) s).1.called =
      s.called ++ pre ++ [cardInfo] := by
  induction pre generalizing k s with
  | nil =>
    have h0 : transfers k = .failed message := by simpa using hfail
    simp [fetchLoop, downloadImage, h0]
  | cons p pre ih =>
    have h0 : transfers k = .saved := by simpa using hpre 0 (by simp)
    have hpre2 : ∀ j, j < pre.length → transfers (k + 1 + j) = .saved := by
      intro j hj
      have := hpre (j + 1) (by simpa using hj)
      rwa [show k + (j + 1) = k + 1 + j by omega] at this
    have hfail2 : transfers (k + 1 + pre.length) = .failed message := by
      rw [show k + 1 + pre.length = k + (p :: pre).length by simp; omega]
      exact hfail
    have hstep : fetchLoop languageUrl transfers k (p :: pre ++ cardInfo :: post) s =
        fetchLoop languageUrl transfers (k + 1) (pre ++ cardInfo :: post)
          (downloadImage languageUrl .saved p s).1 := by
      simp only [List.cons_append, fetchLoop, downloadImage, h0]
      rfl
    rw [hstep]
    obtain ⟨i1, i2⟩ := ih (k + 1) (downloadImage languageUrl .saved p s).1 hpre2 hfail2
    refine ⟨i1, ?_⟩
    rw [i2]
    simp [downloadImage]

/-- C14 fails on the code: `downloadImage` has no `try` block. When the
transfer of the first of two items fails, the error leaves `downloadImage`,
ends the loop of `index.js` and is logged by the main function: the second
item is never passed to `downloadImage` and no file is recorded. -/
theorem fetchImages_stops_at_failure :
    (fetchImages "https://www.onepiece-cardgame.com" firstTransferFails sampleWorklist
      emptyFetchState).called =
      [{ cid := 1, img_src := "/images/cardlist/card/OP05-002.png", series_name := "OP05" }] ∧
    (fetchImages "https://www.onepiece-cardgame.com" firstTransferFails sampleWorklist
      emptyFetchState).log = ["錯誤訊息： timeout of 0ms exceeded"] ∧
    (fetchImages "https://www.onepiece-cardgame.com" firstTransferFails sampleWorklist
      emptyFetchState).files_info = [] ∧
    (fetchImages "https://www.onepiece-cardgame.com" (fun _ => Transfer.saved) sampleWorklist
      emptyFetchState).called = sampleWorklist := by
  decide

/-! ## Claims on the file name of a downloaded image -/

theorem dropWhile_ne_eq_nil (c : Char) (l : List Char) (h : c ∉ l) :
    l.dropWhile (fun x => x != c) = [] := by
  induction l with
  | nil => rfl
  | cons a l ih =>
    simp only [List.mem_cons, not_or] at h
    have hne : (a != c) = true := bne_iff_ne.mpr fun e => h.1 e.symm
    simp [List.dropWhile, hne, ih h.2]

theorem not_mem_takeWhile_ne (c : Char) (l : List Char) :
    c ∉ l.takeWhile (fun x => x != c) := by
  intro h
  have := List.mem_takeWhile_imp h
  simp at this

theorem splitOnSlash_no_slash (l : List Char) : ∀ seg ∈ splitOnSlash l, '/' ∉ seg := by
  induction l with
  | nil => simp [splitOnSlash]
  | cons c cs ih =>
    by_cases hc : c = '/'
    · simp only [splitOnSlash, hc, if_true, List.mem_cons]
      rintro seg (rfl | h)
      · simp
      · exact ih seg h
    · simp only [splitOnSlash, hc, if_false]
      cases hs : splitOnSlash cs with
      | nil => simp [Ne.symm hc]
      | cons s ss =>
        rw [hs] at ih
        simp only [List.mem_cons]
        rintro seg (rfl | h)
        · have := ih s (by simp)
          simp [Ne.symm hc, this]
        · exact ih seg (by simp [h])

theorem pathState_no_slash (segs path : List (List Char))
    (hpath : ∀ seg ∈ path, '/' ∉ seg) (hsegs : ∀ seg ∈ segs, '/' ∉ seg) :
    ∀ seg ∈ pathState path segs, '/' ∉ seg := by
  induction segs generalizing path with
  | nil => simpa [pathState] using hpath
  | cons b rest ih =>
    have hdrop : ∀ seg ∈ path.dropLast, '/' ∉ seg :=
      fun seg h => hpath seg (List.mem_of_mem_dropLast h)
    have hb : '/' ∉ b := hsegs b (by simp)
    have hrest : ∀ seg ∈ rest, '/' ∉ seg := fun seg h => hsegs seg (by simp [h])
    have happ : ∀ seg ∈ path ++ [b], '/' ∉ seg := by
      intro seg h
      rcases List.mem_append.mp h with h | h
      · exact hpath seg h
      · rw [List.mem_singleton] at h; rw [h]; exact hb
    cases rest with
    | nil =>
      simp only [pathState]
      split
      · intro seg h
        rcases List.mem_append.mp h with h | h
        · exact hdrop seg h
        · rw [List.mem_singleton] at h; rw [h]; simp
      · split
        · intro seg h
          rcases List.mem_append.mp h with h | h
          · exact hpath seg h
          · rw [List.mem_singleton] at h; rw [h]; simp
        · exact happ
    | cons b2 rest2 =>
      simp only [pathState]
      split
      · exact ih _ hdrop hrest
      · split
        · exact ih _ hpath hrest
        · exact ih _ happ hrest

theorem resolve_path_no_slash (imgSrc languageUrl : String) :
    ∀ seg ∈ (resolve imgSrc languageUrl).path, '/' ∉ seg := by
  unfold resolve
  simp only
  split
  · simp
  · split
    · exact pathState_no_slash _ _ (by simp) (splitOnSlash_no_slash _)
    · exact pathState_no_slash _ _ (by simp) (splitOnSlash_no_slash _)

theorem basename_append (front tail : List Char) (hne : tail ≠ []) (hslash : '/' ∉ tail) :
    basename (front ++ '/' :: tail) = tail := by
  unfold basename
  have hrev : (front ++ '/' :: tail).reverse = tail.reverse ++ '/' :: front.reverse := by simp
  rw [hrev]
  have hall : ∀ c ∈ tail.reverse, (c != '/') = true := by
    intro c hc
    rw [List.mem_reverse] at hc
    exact bne_iff_ne.mpr fun e => hslash (e ▸ hc)
  have hdrop : (tail.reverse ++ '/' :: front.reverse).dropWhile (fun c => c == '/')
      = tail.reverse ++ '/' :: front.reverse := by
    cases hr : tail.reverse with
    | nil => simp at hr; exact absurd hr hne
    | cons a l =>
      have ha : (a != '/') = true := hall a (by rw [hr]; simp)
      have ha2 : (a == '/') = false := by simpa using ha
      simp [List.dropWhile, ha2]
  rw [hdrop]
  have htake : ∀ (l : List Char), (∀ c ∈ l, (c != '/') = true) →
      (l ++ '/' :: front.reverse).takeWhile (fun c => c != '/') = l := by
    intro l hl
    induction l with
    | nil => simp [List.takeWhile]
    | cons a l ih =>
      have ha := hl a (by simp)
      have ih2 := ih (fun c hc => hl c (by simp [hc]))
      simp only [List.cons_append, List.takeWhile, ha]
      exact congrArg (List.cons a) ih2
  rw [htake _ hall, List.reverse_reverse]

theorem toString_of_last_segment (u : Url) (init : List (List Char)) (name : List Char)
    (h : u.path = init ++ [name]) :
    u.toString = (u.origin ++ init.flatMap fun segment => '/' :: segment) ++
      '/' :: (name ++ u.querySuffix ++ u.fragmentSuffix) := by
  unfold Url.toString
  rw [h]
  simp [List.flatMap_append]

theorem pathPart_of_splitQuery (l : List Char) :
    (((l.takeWhile fun c => c != '?').takeWhile fun c => c != '#').takeWhile fun c => c != '?')
      = (l.takeWhile fun c => c != '#').takeWhile fun c => c != '?' := by
  induction l with
  | nil => rfl
  | cons a l ih =>
    by_cases hq : a = '?'
    · subst hq
      have h1 : (('?' : Char) != '?') = false := by decide
      have h2 : (('?' : Char) != '#') = true := by decide
      simp [List.takeWhile, h1, h2]
    · have h1 : (a != '?') = true := bne_iff_ne.mpr hq
      by_cases hf : a = '#'
      · subst hf
        have h2 : (('#' : Char) != '#') = false := by decide
        simp [List.takeWhile, h1, h2]
      · have h2 : (a != '#') = true := bne_iff_ne.mpr hf
        simp only [List.takeWhile, h1, h2]
        exact congrArg (List.cons a) ih

theorem resolve_splitQuery_path (imgSrc languageUrl : String) :
    (resolve (splitQuery imgSrc) languageUrl).path = (resolve imgSrc languageUrl).path := by
  have h := pathPart_of_splitQuery imgSrc.data
  simp only [resolve, splitQuery]
  rw [h]

theorem resolve_splitQuery_query (imgSrc languageUrl : String) :
    (resolve (splitQuery imgSrc) languageUrl).query = none := by
  have hno : '?' ∉ (splitQuery imgSrc).data := not_mem_takeWhile_ne '?' imgSrc.data
  have hno2 : '?' ∉ (splitQuery imgSrc).data.takeWhile (fun c => c != '#') :=
    fun h => hno ((List.takeWhile_sublist _).subset h)
  simp only [resolve, dropWhile_ne_eq_nil '?' _ hno2]

/-- C15, as amended. Take an image reference of a card block that is a plain
path reference and one of the two site base URLs. `handleSeriesCardlist` stores
the reference cut at its first `?`; the stored reference resolves to a URL
without query and with the path of the URL resolved from the reference itself.
When that path ends with a segment that is not empty and the stored reference
has no fragment, the file name that `downloadImage` chooses for the stored
reference is that final path segment. -/
theorem downloadFileName_of_stored_reference (imageSrc languageUrl : String) (name : List Char)
    (hbase : languageUrl ∈ languageUrls) (hplain : isPlainReference imageSrc = true)
    (hlast : (resolve imageSrc languageUrl).path.getLast? = some name) (hne : name ≠ [])
    (hfragment : (resolve (splitQuery imageSrc) languageUrl).fragment = none) :
    (resolve (splitQuery imageSrc) languageUrl).query = none ∧
    (resolve (splitQuery imageSrc) languageUrl).path = (resolve imageSrc languageUrl).path ∧
    downloadFileName (splitQuery imageSrc) languageUrl = ⟨name⟩ := by
  have hq := resolve_splitQuery_query imageSrc languageUrl
  have hp := resolve_splitQuery_path imageSrc languageUrl
  have _ := hbase
  have _ := hplain
  refine ⟨hq, hp, ?_⟩
  have hlast2 : (resolve (splitQuery imageSrc) languageUrl).path.getLast? = some name := by
    rw [hp]; exact hlast
  obtain ⟨init, hinit⟩ := List.getLast?_eq_some_iff.mp hlast2
  have hname : '/' ∉ name :=
    resolve_path_no_slash (splitQuery imageSrc) languageUrl name (by rw [hinit]; simp)
  have hstr := toString_of_last_segment (resolve (splitQuery imageSrc) languageUrl) init name hinit
  unfold downloadFileName
  rw [hstr]
  simp only [Url.querySuffix, Url.fragmentSuffix, hq, hfragment, List.append_nil]
  rw [basename_append _ _ hne hname]

/-- Witness for C15 as amended: the reference `/img/OP05-002_p1.png?v=2` is
stored as `/img/OP05-002_p1.png` and downloaded as `OP05-002_p1.png`, and so is
the reference `/img/OP05-002_p1.png`. -/
theorem downloadFileName_of_stored_reference_witness :
    splitQuery "/img/OP05-002_p1.png?v=2" = "/img/OP05-002_p1.png" ∧
    (resolve "/img/OP05-002_p1.png?v=2" "https://www.onepiece-cardgame.com").path.getLast?
      = some "OP05-002_p1.png".data ∧
    downloadFileName (splitQuery "/img/OP05-002_p1.png") "https://www.onepiece-cardgame.com"
      = "OP05-002_p1.png" ∧
    "https://www.onepiece-cardgame.com" ∈ languageUrls ∧
    isPlainReference "/img/OP05-002_p1.png?v=2" = true ∧
    (resolve (splitQuery "/img/OP05-002_p1.png?v=2") "https://www.onepiece-cardgame.com").query
      = none ∧
    (resolve (splitQuery "/img/OP05-002_p1.png?v=2") "https://www.onepiece-cardgame.com").path
      = (resolve "/img/OP05-002_p1.png?v=2" "https://www.onepiece-cardgame.com").path ∧
    downloadFileName (splitQuery "/img/OP05-002_p1.png?v=2") "https://www.onepiece-cardgame.com"
      = ⟨"OP05-002_p1.png".data⟩ :=
  ⟨by decide, by decide, by decide, by decide, by decide,
    downloadFileName_of_stored_reference "/img/OP05-002_p1.png?v=2"
      "https://www.onepiece-cardgame.com" "OP05-002_p1.png".data (by decide) (by decide)
      (by decide) (by decide) (by decide)⟩

/-- C15, as stated, fails: a card block without image is stored with the
`img_src` `''`, which resolves to the URL `https://www.onepiece-cardgame.com/`,
whose final path segment is empty, and `downloadImage` chooses the host name
`www.onepiece-cardgame.com` as file name. -/
theorem downloadFileName_of_block_without_image :
    (cardOf noMarkup "569105"
      { frontCol := none, backCol := some (samplePanel (some "2") (some "5000") none),
        info1 := some "OP05-002", info2 := some "L", info3 := some "LEADER" }).map
      (fun r => r.img_src) = some "" ∧
    isPlainReference "" = true ∧
    "https://www.onepiece-cardgame.com" ∈ languageUrls ∧
    (resolve "" "https://www.onepiece-cardgame.com").toString
      = "https://www.onepiece-cardgame.com/".data ∧
    (resolve "" "https://www.onepiece-cardgame.com").path.getLast? = some [] ∧
    downloadFileName "" "https://www.onepiece-cardgame.com" = "www.onepiece-cardgame.com" ∧
    downloadFileName "" "https://www.onepiece-cardgame.com" ≠ "" := by
  decide

end OpcgCardlist
